import Mathlib

/-!
The class `chameleon::BlobDisplay`.

A shallow embedding of `blobDisplay.hpp`: the blob registry
(`_blobAndIsVisibleById` with `promoteBlob`, `updateBlob`, `demoteBlob`,
`deleteBlob`), the render pass `paint`, and the covariance-to-ellipse
conversion `ellipseFromBlob`.

Conventions of the embedding.

* The scalar type of the geometry fields (`double` in the source) is a
  parameter `R` for everything that only stores and copies the fields; the
  arithmetic of `ellipseFromBlob` and `paint` is carried out over `ℝ`.
* `std::size_t` identifiers are natural numbers; they are only compared.
* The `int` members of `QSize` are integers; the one `int` operation of the
  source, `_canvasSize.height() - 1` in `paint`, is taken modulo `2 ^ 32`
  (`wrapInt32`).
* `std::unordered_map` is an association list in iteration order.  `find`
  returns the first entry with the key, writes through the iterator returned
  by `find` rewrite that entry, `insert` adds an entry only when the key is
  absent and `erase` removes every entry with the key.  `BlobMap.WF` states
  that keys are unique, which every operation preserves.
* The spin lock `_accessingBlobs` is a boolean field.  In one thread of
  control nobody clears the flag while an operation spins on it, so an
  operation entered with the flag set never returns (`Outcome.spins`).
* Dereferencing the end iterator (`updateBlob` and `demoteBlob` on an absent
  identifier) is `Outcome.undefinedBehaviour`.
-/

namespace chameleon

/-! ## Data model -/

/-- ProtectedBlob represents a tracked gaussian blob (source lines 168-175). -/
structure ProtectedBlob (R : Type) where
  x : R
  y : R
  squaredSigmaX : R
  sigmaXY : R
  squaredSigmaY : R
deriving DecidableEq, Repr

/-- The value type of the registry: `std::pair<ProtectedBlob, bool>`. -/
abbrev BlobAndIsVisible (R : Type) := ProtectedBlob R × Bool

/-- The registry `std::unordered_map<std::size_t, std::pair<ProtectedBlob, bool>>`,
as the list of its entries in iteration order. -/
abbrev BlobMap (R : Type) := List (Nat × BlobAndIsVisible R)

/-- How a call of a member function ends. -/
inductive Outcome (α : Type) where
  /-- The call returns, leaving the given value. -/
  | returned (a : α)
  /-- The call never leaves `while (_accessingBlobs.test_and_set(...)) {}`. -/
  | spins
  /-- The call dereferences the end iterator of the registry. -/
  | undefinedBehaviour
deriving DecidableEq, Repr

/-- The relevant part of `QSize`: two `int` members, which hold values from
`-2147483648` to `2147483647`. -/
structure QSize where
  width : Int
  height : Int
deriving DecidableEq, Repr

/-- The relevant part of `QPen`: colour (an opaque code) and width. -/
structure QPen (R : Type) where
  color : Nat
  widthF : R
deriving DecidableEq, Repr

/-- The relevant part of `QBrush`: colour (an opaque code). -/
structure QBrush where
  color : Nat
deriving DecidableEq, Repr

/-- The data members of `BlobDisplay` (source lines 196-201). -/
structure BlobDisplay (R : Type) where
  canvasSize : QSize
  pen : QPen R
  brush : QBrush
  confidence : R
  blobAndIsVisibleById : BlobMap R
  accessingBlobs : Bool
deriving DecidableEq, Repr

/-! ## The registry container -/

namespace BlobMap

variable {R : Type}

/-- The value `find(id)` points to, `none` for the end iterator. -/
def find : BlobMap R → Nat → Option (BlobAndIsVisible R)
  | [], _ => none
  | (k, v) :: rest, id => if k = id then some v else find rest id

/-- A write through the iterator `find(id)` returned: the entry it points to
has its value replaced by `f` of it. -/
def modify : BlobMap R → Nat → (BlobAndIsVisible R → BlobAndIsVisible R) → BlobMap R
  | [], _, _ => []
  | (k, v) :: rest, id, f =>
      if k = id then (k, f v) :: rest else (k, v) :: modify rest id f

/-- The call `insert(std::make_pair(id, v))`: adds the entry unless the key is
already there.  The place of the new entry in the iteration order is not
specified by the container; the model puts it first. -/
def insert (m : BlobMap R) (id : Nat) (v : BlobAndIsVisible R) : BlobMap R :=
  match find m id with
  | none => (id, v) :: m
  | some _ => m

/-- The call `erase(id)`: removes the entries with key `id`. -/
def erase (m : BlobMap R) (id : Nat) : BlobMap R :=
  m.filter (fun e => e.1 != id)

/-- The keys of the registry, in iteration order. -/
def ids (m : BlobMap R) : List Nat := m.map Prod.fst

/-- Keys are unique, as in every `std::unordered_map`. -/
def WF (m : BlobMap R) : Prop := (ids m).Nodup

instance (m : BlobMap R) : Decidable (WF m) := by
  unfold WF; infer_instance

end BlobMap

/-! ## The registry operations -/

section Operations

variable {R : Type}

/-- The function promoteBlob adds a blob to the display or shows a hidden blob
(source lines 87-109). -/
def promoteBlob (d : BlobDisplay R) (id : Nat) (blob : ProtectedBlob R) :
    Outcome (BlobDisplay R) :=
  if d.accessingBlobs then .spins
  else
    match d.blobAndIsVisibleById.find id with
    | none =>
        .returned { d with
          blobAndIsVisibleById := d.blobAndIsVisibleById.insert id
            (ProtectedBlob.mk blob.x blob.y blob.squaredSigmaX blob.sigmaXY blob.squaredSigmaY,
              true)
          accessingBlobs := false }
    | some _ =>
        .returned { d with
          blobAndIsVisibleById := d.blobAndIsVisibleById.modify id (fun e =>
            ({ e.1 with
                x := blob.x
                y := blob.y
                squaredSigmaX := blob.squaredSigmaX
                sigmaXY := blob.sigmaXY
                squaredSigmaY := blob.squaredSigmaY }, true))
          accessingBlobs := false }

/-- The function updateBlob changes a visible blob (source lines 111-122). -/
def updateBlob (d : BlobDisplay R) (id : Nat) (blob : ProtectedBlob R) :
    Outcome (BlobDisplay R) :=
  if d.accessingBlobs then .spins
  else
    match d.blobAndIsVisibleById.find id with
    | none => .undefinedBehaviour
    | some _ =>
        .returned { d with
          blobAndIsVisibleById := d.blobAndIsVisibleById.modify id (fun e =>
            ({ e.1 with
                x := blob.x
                y := blob.y
                squaredSigmaX := blob.squaredSigmaX
                sigmaXY := blob.sigmaXY
                squaredSigmaY := blob.squaredSigmaY }, e.2))
          accessingBlobs := false }

/-- The function demoteBlob hides a blob while keeping its data
(source lines 124-136). -/
def demoteBlob (d : BlobDisplay R) (id : Nat) (blob : ProtectedBlob R) :
    Outcome (BlobDisplay R) :=
  if d.accessingBlobs then .spins
  else
    match d.blobAndIsVisibleById.find id with
    | none => .undefinedBehaviour
    | some _ =>
        .returned { d with
          blobAndIsVisibleById := d.blobAndIsVisibleById.modify id (fun e =>
            ({ e.1 with
                x := blob.x
                y := blob.y
                squaredSigmaX := blob.squaredSigmaX
                sigmaXY := blob.sigmaXY
                squaredSigmaY := blob.squaredSigmaY }, false))
          accessingBlobs := false }

/-- The function deleteBlob removes a blob from the display (source lines
138-144); its second argument is not used. -/
def deleteBlob (d : BlobDisplay R) (id : Nat) (_blob : ProtectedBlob R) :
    Outcome (BlobDisplay R) :=
  if d.accessingBlobs then .spins
  else
    .returned { d with
      blobAndIsVisibleById := d.blobAndIsVisibleById.erase id
      accessingBlobs := false }

end Operations

/-! ## Sequences of calls on one identifier -/

section Calls

variable {R : Type}

/-- A call of `promoteBlob`, `updateBlob` or `demoteBlob`, with its blob. -/
inductive Call (R : Type) where
  | promote (blob : ProtectedBlob R)
  | update (blob : ProtectedBlob R)
  | demote (blob : ProtectedBlob R)
deriving DecidableEq, Repr

/-- The call made on identifier `id`. -/
def Call.apply (d : BlobDisplay R) (id : Nat) : Call R → Outcome (BlobDisplay R)
  | .promote blob => promoteBlob d id blob
  | .update blob => updateBlob d id blob
  | .demote blob => demoteBlob d id blob

/-- The calls of the list made one after the other on identifier `id`; a call
is made only when the one before it has returned. -/
def runCalls (d : BlobDisplay R) (id : Nat) : List (Call R) → Outcome (BlobDisplay R)
  | [] => .returned d
  | c :: cs =>
      match c.apply d id with
      | .returned d1 => runCalls d1 id cs
      | .spins => .spins
      | .undefinedBehaviour => .undefinedBehaviour

/-- Whether the call is an `updateBlob` or a `demoteBlob`. -/
def Call.isUpdateOrDemote : Call R → Bool
  | .promote _ => false
  | .update _ => true
  | .demote _ => true

/-- Whether the identifier is in the registry of `d`. -/
def BlobDisplay.contains (d : BlobDisplay R) (id : Nat) : Bool :=
  (d.blobAndIsVisibleById.find id).isSome

/-- The visible flag of the entry of `id`, `none` when there is no entry. -/
def BlobDisplay.visibleOf (d : BlobDisplay R) (id : Nat) : Option Bool :=
  (d.blobAndIsVisibleById.find id).map Prod.snd

/-- While the calls of the list are made one after the other, the identifier is
in the registry at every call of `updateBlob` or `demoteBlob`. -/
def presentWhenCalled (d : BlobDisplay R) (id : Nat) : List (Call R) → Bool
  | [] => true
  | c :: cs =>
      (!c.isUpdateOrDemote || d.contains id) &&
        match c.apply d id with
        | .returned d1 => presentWhenCalled d1 id cs
        | .spins => true
        | .undefinedBehaviour => true

/-- The last call of the list that is a promote or a demote: `some true` for a
promote, `some false` for a demote, `none` when the list has neither. -/
def lastPromoteOrDemote : List (Call R) → Option Bool
  | [] => none
  | c :: cs =>
      match lastPromoteOrDemote cs with
      | some b => some b
      | none =>
          match c with
          | .promote _ => some true
          | .update _ => none
          | .demote _ => some false

end Calls

/-! ## The ellipse of a blob -/

/-- The local constant `deltaSquareRoot` of `ellipseFromBlob` (source line 183). -/
noncomputable def deltaSquareRoot (blob : ProtectedBlob ℝ) : ℝ :=
  Real.sqrt ((blob.squaredSigmaX - blob.squaredSigmaY) ^ 2 + 4 * blob.sigmaXY ^ 2) / 2

/-- The local constant `firstOrderCoefficient` of `ellipseFromBlob` (source line 184). -/
noncomputable def firstOrderCoefficient (blob : ProtectedBlob ℝ) : ℝ :=
  (blob.squaredSigmaX + blob.squaredSigmaY) / 2

/-- The function ellipseFromBlob calculates an ellipse parameters from a blob
(source lines 177-194).  The result holds the major radius, the minor radius
and the angle between the horizontal axis and the major axis, in that order.
`Real.sqrt` is `0` on negative numbers where `std::sqrt` gives a NaN; the
theorems below say when the arguments are non-negative. -/
noncomputable def ellipseFromBlob (blob : ProtectedBlob ℝ) (confidence : ℝ) : ℝ × ℝ × ℝ :=
  (confidence * Real.sqrt (firstOrderCoefficient blob + deltaSquareRoot blob),
    confidence * Real.sqrt (firstOrderCoefficient blob - deltaSquareRoot blob),
    if blob.squaredSigmaY = blob.squaredSigmaX then Real.pi / 4
    else
      (Real.arctan (2 * blob.sigmaXY / (blob.squaredSigmaX - blob.squaredSigmaY))
        + (if blob.squaredSigmaY > blob.squaredSigmaX then Real.pi else 0)) / 2)

/-- The covariance of the blob is positive semidefinite. -/
def PositiveSemidefinite (blob : ProtectedBlob ℝ) : Prop :=
  0 ≤ blob.squaredSigmaX ∧ 0 ≤ blob.squaredSigmaY ∧
    blob.sigmaXY ^ 2 ≤ blob.squaredSigmaX * blob.squaredSigmaY

/-- The characteristic polynomial of the covariance matrix
`[[squaredSigmaX, sigmaXY], [sigmaXY, squaredSigmaY]]` at `l`, that is the
determinant of the matrix minus `l` times the identity. -/
def characteristicPolynomial (blob : ProtectedBlob ℝ) (l : ℝ) : ℝ :=
  (blob.squaredSigmaX - l) * (blob.squaredSigmaY - l) - blob.sigmaXY * blob.sigmaXY

/-! ## The render pass -/

/-- What one call of `paint` does, in order: the calls on the painter and the
taking and the release of `_accessingBlobs`. -/
inductive PaintEvent where
  | setPen (pen : QPen ℝ)
  | setBrush (brush : QBrush)
  /-- The call `setRenderHint(QPainter::Antialiasing)`. -/
  | setRenderHint
  /-- A `test_and_set` that found the flag clear and set it. -/
  | lockAcquire
  /-- The call `_accessingBlobs.clear(...)`. -/
  | lockRelease
  | resetTransform
  | setWindow (x y width height : Int)
  | translate (dx dy : ℝ)
  | rotate (degrees : ℝ)
  /-- The call `drawEllipse(QPointF(), rx, ry)`, centred at the origin. -/
  | drawEllipse (rx ry : ℝ)

/-- Whether the event is an ellipse draw command. -/
def PaintEvent.isDraw : PaintEvent → Bool
  | .drawEllipse _ _ => true
  | _ => false

/-- The value a 32-bit `int` holds after an arithmetic operation whose exact
result is `z`: the result taken modulo `2 ^ 32` into the range from
`-2147483648` to `2147483647`. -/
def wrapInt32 (z : Int) : Int :=
  (z + 2147483648) % 4294967296 - 2147483648

/-- The body of the loop of `paint` for one entry of the registry (source
lines 154-161).  In `_canvasSize.height() - 1 - y` the subtraction
`_canvasSize.height() - 1` is done on `int` before the conversion to `double`;
it wraps around at the least `int`. -/
noncomputable def paintEntry (d : BlobDisplay ℝ) (idAndBlobAndIsVisible : Nat × BlobAndIsVisible ℝ) :
    List PaintEvent :=
  if idAndBlobAndIsVisible.2.2 then
    let ellipse := ellipseFromBlob idAndBlobAndIsVisible.2.1 d.confidence
    [ .resetTransform,
      .setWindow 0 0 d.canvasSize.width d.canvasSize.height,
      .translate idAndBlobAndIsVisible.2.1.x
        ((wrapInt32 (d.canvasSize.height - 1) : ℝ) - idAndBlobAndIsVisible.2.1.y),
      .rotate (-ellipse.2.2 / Real.pi * 180),
      .drawEllipse ellipse.1 ellipse.2.1 ]
  else []

/-- The function paint is called by the render thread when drawing is required
(source lines 146-164): the events of the call and the display it leaves. -/
noncomputable def paint (d : BlobDisplay ℝ) : Outcome (List PaintEvent × BlobDisplay ℝ) :=
  if d.accessingBlobs then .spins
  else
    .returned
      ([.setPen d.pen, .setBrush d.brush, .setRenderHint, .lockAcquire]
          ++ d.blobAndIsVisibleById.flatMap (paintEntry d)
          ++ [.lockRelease],
        { d with accessingBlobs := false })

/-- The ellipse draw command of an entry. -/
noncomputable def drawOf (d : BlobDisplay ℝ) (e : Nat × BlobAndIsVisible ℝ) : PaintEvent :=
  .drawEllipse (ellipseFromBlob e.2.1 d.confidence).1 (ellipseFromBlob e.2.1 d.confidence).2.1

/-! ## Construction and configuration -/

/-- The constructor (source lines 22-30): black pen of width 1, transparent
brush, confidence 1.96, default `QSize`, empty registry, flag clear. -/
noncomputable def BlobDisplay.construct : BlobDisplay ℝ :=
  { canvasSize := QSize.mk (-1) (-1)
    pen := QPen.mk 0xff000000 1
    brush := QBrush.mk 0
    confidence := 1.96
    blobAndIsVisibleById := []
    accessingBlobs := false }

/-- The function setCanvasSize defines the display coordinates. -/
def setCanvasSize {R : Type} (d : BlobDisplay R) (canvasSize : QSize) : BlobDisplay R :=
  { d with canvasSize := canvasSize }

/-- The function setConfidence defines the confidence level for gaussian
representation. -/
def setConfidence {R : Type} (d : BlobDisplay R) (confidence : R) : BlobDisplay R :=
  { d with confidence := confidence }

/-- What holds of a display between two calls: the access flag is clear and
the keys of the registry are unique. -/
def BlobDisplay.Idle {R : Type} (d : BlobDisplay R) : Prop :=
  d.accessingBlobs = false ∧ d.blobAndIsVisibleById.WF

/-! ## The angle with the division left open, the last call, the lock along a trace -/

/-- The third component of the result of `ellipseFromBlob` (source lines
188-192) with the division of the `std::atan` argument as a parameter: the
conditional operator evaluates `divide` only when the two variances differ. -/
noncomputable def ellipseAngleWith (divide : ℝ → ℝ → ℝ) (blob : ProtectedBlob ℝ) : ℝ :=
  if blob.squaredSigmaY = blob.squaredSigmaX then Real.pi / 4
  else
    (Real.arctan (divide (2 * blob.sigmaXY) (blob.squaredSigmaX - blob.squaredSigmaY))
      + (if blob.squaredSigmaY > blob.squaredSigmaX then Real.pi else 0)) / 2

/-- Whether the last call of the list is a demote.  Each of the three calls
writes the five geometry fields of the entry, so the last call of a run is the
most recent one that touched the entry. -/
def lastCallIsDemote {R : Type} : List (Call R) → Bool
  | [] => false
  | [.demote _] => true
  | [_] => false
  | _ :: c :: cs => lastCallIsDemote (c :: cs)

/-- Whether `_accessingBlobs` is held after the event, given whether it was
held before it. -/
def PaintEvent.lockAfter (held : Bool) : PaintEvent → Bool
  | .lockAcquire => true
  | .lockRelease => false
  | _ => held

/-- No ellipse draw command of the trace is issued while `_accessingBlobs` is
held; `held` says whether it is held where the trace starts. -/
def noDrawWhileHeld : Bool → List PaintEvent → Bool
  | _, [] => true
  | held, e :: es => !(held && e.isDraw) && noDrawWhileHeld (e.lockAfter held) es

/-- Every ellipse draw command of the trace is issued while `_accessingBlobs`
is held; `held` says whether it is held where the trace starts. -/
def everyDrawWhileHeld : Bool → List PaintEvent → Bool
  | _, [] => true
  | held, e :: es => (!e.isDraw || held) && everyDrawWhileHeld (e.lockAfter held) es

/-- Whether `_accessingBlobs` is held at the end of the trace. -/
def lockAtEnd : Bool → List PaintEvent → Bool
  | held, [] => held
  | held, e :: es => lockAtEnd (e.lockAfter held) es

/-- The call that led from `d` to `d1` left identifier `j` and the
configuration untouched: `j` has the same entry (or none) in both, and the
canvas size and the confidence are the same. -/
def BlobDisplay.UntouchedAt {R : Type} (d d1 : BlobDisplay R) (j : Nat) : Prop :=
  d1.blobAndIsVisibleById.find j = d.blobAndIsVisibleById.find j ∧
    d1.canvasSize = d.canvasSize ∧ d1.confidence = d.confidence

/-! ## An example display, used to instantiate the theorems -/

/-- A display over the integers holding two blobs, the first one hidden. -/
def exampleDisplay : BlobDisplay Int :=
  { canvasSize := QSize.mk 320 240
    pen := QPen.mk 0 1
    brush := QBrush.mk 0
    confidence := 2
    blobAndIsVisibleById :=
      [(7, (ProtectedBlob.mk 1 2 3 4 5, false)), (9, (ProtectedBlob.mk 10 20 30 40 50, true))]
    accessingBlobs := false }

/-- A display over the reals holding three blobs, the second one hidden. -/
noncomputable def exampleDisplayReal : BlobDisplay ℝ :=
  { canvasSize := QSize.mk 320 240
    pen := QPen.mk 0xff000000 1
    brush := QBrush.mk 0
    confidence := 1.96
    blobAndIsVisibleById :=
      [(1, (ProtectedBlob.mk 10 20 4 0 1, true)),
        (2, (ProtectedBlob.mk 30 40 1 0 1, false)),
        (3, (ProtectedBlob.mk 50 60 2 1 2, true))]
    accessingBlobs := false }

/-- A blob over the reals whose covariance has `squaredSigmaY > squaredSigmaX`
and a non-zero `sigmaXY`. -/
noncomputable def exampleTilted : ProtectedBlob ℝ := ProtectedBlob.mk 50 60 1 1 4

/-- A blob over the reals with equal variances 2 and covariance -1, a
positive-definite covariance of two anticorrelated coordinates. -/
noncomputable def exampleAnticorrelated : ProtectedBlob ℝ := ProtectedBlob.mk 0 0 2 (-1) 2

/-- A display over the reals holding one visible blob. -/
noncomputable def exampleDisplayOne : BlobDisplay ℝ :=
  { canvasSize := QSize.mk 320 240
    pen := QPen.mk 0xff000000 1
    brush := QBrush.mk 0
    confidence := 1
    blobAndIsVisibleById := [(1, (ProtectedBlob.mk 10 20 4 0 1, true))]
    accessingBlobs := false }

/-- A display over the reals holding one visible blob, with the least `int` as
the canvas height. -/
noncomputable def exampleDisplayLeastHeight : BlobDisplay ℝ :=
  { canvasSize := QSize.mk 320 (-2147483648)
    pen := QPen.mk 0xff000000 1
    brush := QBrush.mk 0
    confidence := 1
    blobAndIsVisibleById := [(1, (ProtectedBlob.mk 10 20 4 0 1, true))]
    accessingBlobs := false }

/-- A blob over the integers. -/
def exampleBlob : ProtectedBlob Int := ProtectedBlob.mk 11 12 13 14 15

/-! ## Facts about the registry container -/

namespace BlobMap

variable {R : Type}

theorem find_eq_none_iff (m : BlobMap R) (id : Nat) :
    find m id = none ↔ id ∉ ids m := by
  induction m with
  | nil => simp [find, ids]
  | cons e rest ih =>
      obtain ⟨k, v⟩ := e
      by_cases hk : k = id
      · simp [find, ids, hk]
      · have hk2 : ¬ id = k := fun h => hk h.symm
        simpa [find, ids, hk, hk2] using ih

theorem find_modify_self (m : BlobMap R) (id : Nat)
    (f : BlobAndIsVisible R → BlobAndIsVisible R) (v : BlobAndIsVisible R)
    (h : find m id = some v) : find (modify m id f) id = some (f v) := by
  induction m with
  | nil => simp [find] at h
  | cons e rest ih =>
      obtain ⟨k, w⟩ := e
      by_cases hk : k = id
      · simp [find, hk] at h
        simp [modify, find, hk, h]
      · simp [find, hk] at h
        simp [modify, find, hk, ih h]

theorem find_modify_other (m : BlobMap R) (id j : Nat)
    (f : BlobAndIsVisible R → BlobAndIsVisible R) (h : j ≠ id) :
    find (modify m id f) j = find m j := by
  induction m with
  | nil => simp [modify]
  | cons e rest ih =>
      obtain ⟨k, w⟩ := e
      have hij : ¬ id = j := fun e => h e.symm
      by_cases hk : k = id
      · subst hk
        simp [modify, find, hij]
      · by_cases hkj : k = j
        · subst hkj
          simp [modify, find, hk]
        · simp [modify, find, hk, hkj, ih]

theorem ids_modify (m : BlobMap R) (id : Nat)
    (f : BlobAndIsVisible R → BlobAndIsVisible R) : ids (modify m id f) = ids m := by
  induction m with
  | nil => simp [modify]
  | cons e rest ih =>
      obtain ⟨k, w⟩ := e
      by_cases hk : k = id
      · simp [modify, ids, hk]
      · simp only [modify, hk, if_false, ids, List.map_cons] at ih ⊢
        rw [ih]

theorem find_insert_self (m : BlobMap R) (id : Nat) (v : BlobAndIsVisible R)
    (h : find m id = none) : find (insert m id v) id = some v := by
  simp [insert, h, find]

theorem find_insert_other (m : BlobMap R) (id j : Nat) (v : BlobAndIsVisible R)
    (h : j ≠ id) : find (insert m id v) j = find m j := by
  unfold insert
  cases find m id with
  | none =>
      have : ¬ id = j := fun e => h e.symm
      simp [find, this]
  | some _ => rfl

theorem find_erase_self (m : BlobMap R) (id : Nat) : find (erase m id) id = none := by
  rw [find_eq_none_iff]
  simp [ids, erase, List.mem_filter]

theorem erase_of_absent (m : BlobMap R) (id : Nat) (h : find m id = none) :
    erase m id = m := by
  rw [find_eq_none_iff] at h
  unfold erase
  rw [List.filter_eq_self]
  intro e he
  have : e.1 ≠ id := by
    intro hk
    apply h
    simp only [ids, List.mem_map]
    exact ⟨e, he, hk⟩
  simpa using this

theorem find_erase_other (m : BlobMap R) (id j : Nat) (h : j ≠ id) :
    find (erase m id) j = find m j := by
  induction m with
  | nil => simp [erase]
  | cons e rest ih =>
      obtain ⟨k, w⟩ := e
      by_cases hk : k = id
      · have hkj : ¬ k = j := fun e => h (e.symm.trans hk)
        have : erase ((k, w) :: rest) id = erase rest id := by
          simp [erase, hk]
        rw [this, ih]
        simp [find, hkj]
      · have : erase ((k, w) :: rest) id = (k, w) :: erase rest id := by
          simp [erase, hk]
        rw [this]
        by_cases hkj : k = j
        · simp [find, hkj]
        · simp [find, hkj, ih]

theorem wf_nil : WF ([] : BlobMap R) := by
  simp [WF, ids]

theorem wf_modify (m : BlobMap R) (id : Nat)
    (f : BlobAndIsVisible R → BlobAndIsVisible R) (h : WF m) : WF (modify m id f) := by
  unfold WF
  rw [ids_modify]
  exact h

theorem wf_insert (m : BlobMap R) (id : Nat) (v : BlobAndIsVisible R) (h : WF m) :
    WF (insert m id v) := by
  unfold insert
  cases hf : find m id with
  | none =>
      rw [find_eq_none_iff] at hf
      simp only [WF, ids, List.map_cons, List.nodup_cons]
      exact ⟨hf, h⟩
  | some _ => exact h

theorem wf_erase (m : BlobMap R) (id : Nat) (h : WF m) : WF (erase m id) := by
  unfold WF ids erase
  exact (List.filter_sublist m).map Prod.fst |>.nodup h

end BlobMap

/-! ## The access flag and the uniqueness of keys between calls -/

section Invariants

variable {R : Type}

theorem construct_idle : BlobDisplay.construct.Idle :=
  ⟨rfl, BlobMap.wf_nil⟩

theorem promoteBlob_idle (d : BlobDisplay R) (id : Nat) (blob : ProtectedBlob R)
    (h : d.Idle) : ∃ d1, promoteBlob d id blob = .returned d1 ∧ d1.Idle := by
  obtain ⟨hfree, hwf⟩ := h
  unfold promoteBlob
  cases hfind : d.blobAndIsVisibleById.find id with
  | none =>
      simp only [hfree]
      exact ⟨_, rfl, rfl, BlobMap.wf_insert _ _ _ hwf⟩
  | some old =>
      simp only [hfree]
      exact ⟨_, rfl, rfl, BlobMap.wf_modify _ _ _ hwf⟩

theorem updateBlob_idle (d d1 : BlobDisplay R) (id : Nat) (blob : ProtectedBlob R)
    (h : d.Idle) (hret : updateBlob d id blob = .returned d1) : d1.Idle := by
  obtain ⟨hfree, hwf⟩ := h
  unfold updateBlob at hret
  cases hfind : d.blobAndIsVisibleById.find id with
  | none => simp [hfree, hfind] at hret
  | some old =>
      simp only [hfree, hfind] at hret
      injection hret with hret
      subst hret
      exact ⟨rfl, BlobMap.wf_modify _ _ _ hwf⟩

theorem demoteBlob_idle (d d1 : BlobDisplay R) (id : Nat) (blob : ProtectedBlob R)
    (h : d.Idle) (hret : demoteBlob d id blob = .returned d1) : d1.Idle := by
  obtain ⟨hfree, hwf⟩ := h
  unfold demoteBlob at hret
  cases hfind : d.blobAndIsVisibleById.find id with
  | none => simp [hfree, hfind] at hret
  | some old =>
      simp only [hfree, hfind] at hret
      injection hret with hret
      subst hret
      exact ⟨rfl, BlobMap.wf_modify _ _ _ hwf⟩

theorem deleteBlob_idle (d : BlobDisplay R) (id : Nat) (blob : ProtectedBlob R)
    (h : d.Idle) : ∃ d1, deleteBlob d id blob = .returned d1 ∧ d1.Idle := by
  obtain ⟨hfree, hwf⟩ := h
  unfold deleteBlob
  simp only [hfree]
  exact ⟨_, rfl, rfl, BlobMap.wf_erase _ _ hwf⟩

theorem setCanvasSize_idle (d : BlobDisplay R) (canvasSize : QSize) (h : d.Idle) :
    (setCanvasSize d canvasSize).Idle := h

theorem setConfidence_idle (d : BlobDisplay R) (confidence : R) (h : d.Idle) :
    (setConfidence d confidence).Idle := h

end Invariants

/-! ## The registry operations: promote, update, demote, delete -/

section OperationTheorems

variable {R : Type}

/-- C1. Called with the access flag clear, `promoteBlob` returns, and the
registry then holds an entry for `id` whose five geometry fields are those of
`blob` and whose visible flag is true, whatever the registry held for `id`
before (nothing, or an entry of any geometry and visibility). -/
theorem promoteBlob_spec (d : BlobDisplay R) (id : Nat) (blob : ProtectedBlob R)
    (hfree : d.accessingBlobs = false) :
    ∃ d1, promoteBlob d id blob = .returned d1 ∧
      ∃ e, d1.blobAndIsVisibleById.find id = some e ∧
        e.1.x = blob.x ∧ e.1.y = blob.y ∧ e.1.squaredSigmaX = blob.squaredSigmaX ∧
        e.1.sigmaXY = blob.sigmaXY ∧ e.1.squaredSigmaY = blob.squaredSigmaY ∧
        e.2 = true := by
  unfold promoteBlob
  cases hfind : d.blobAndIsVisibleById.find id with
  | none =>
      simp only [hfree]
      refine ⟨_, rfl, _, BlobMap.find_insert_self _ _ _ hfind, ?_⟩
      simp
  | some old =>
      simp only [hfree]
      refine ⟨_, rfl, _, BlobMap.find_modify_self _ _ _ _ hfind, ?_⟩
      simp

/-- An instance of C1 on an identifier that is present and hidden. -/
theorem promoteBlob_spec_witness :
    exampleDisplay.accessingBlobs = false ∧
    ∃ d1, promoteBlob exampleDisplay 7 exampleBlob = .returned d1 ∧
      ∃ e, d1.blobAndIsVisibleById.find 7 = some e ∧
        e.1.x = exampleBlob.x ∧ e.1.y = exampleBlob.y ∧
        e.1.squaredSigmaX = exampleBlob.squaredSigmaX ∧
        e.1.sigmaXY = exampleBlob.sigmaXY ∧ e.1.squaredSigmaY = exampleBlob.squaredSigmaY ∧
        e.2 = true :=
  ⟨rfl, promoteBlob_spec exampleDisplay 7 exampleBlob rfl⟩

/-- C2. Called with the access flag clear on an identifier that is in the
registry, `updateBlob` returns; the entry of `id` then has the five geometry
fields of `blob` and the visible flag it had before, and the identifiers of the
registry are the same as before. -/
theorem updateBlob_spec (d : BlobDisplay R) (id : Nat) (blob : ProtectedBlob R)
    (old : BlobAndIsVisible R) (hfree : d.accessingBlobs = false)
    (hfind : d.blobAndIsVisibleById.find id = some old) :
    ∃ d1, updateBlob d id blob = .returned d1 ∧
      (∃ e, d1.blobAndIsVisibleById.find id = some e ∧
        e.1.x = blob.x ∧ e.1.y = blob.y ∧ e.1.squaredSigmaX = blob.squaredSigmaX ∧
        e.1.sigmaXY = blob.sigmaXY ∧ e.1.squaredSigmaY = blob.squaredSigmaY ∧
        e.2 = old.2) ∧
      d1.blobAndIsVisibleById.ids = d.blobAndIsVisibleById.ids := by
  unfold updateBlob
  simp only [hfree, hfind]
  refine ⟨_, rfl, ⟨_, BlobMap.find_modify_self _ _ _ _ hfind, ?_⟩, BlobMap.ids_modify _ _ _⟩
  simp

/-- An instance of C2 on a hidden entry. -/
theorem updateBlob_spec_witness :
    exampleDisplay.accessingBlobs = false ∧
    exampleDisplay.blobAndIsVisibleById.find 7 = some (ProtectedBlob.mk 1 2 3 4 5, false) ∧
    ∃ d1, updateBlob exampleDisplay 7 exampleBlob = .returned d1 ∧
      (∃ e, d1.blobAndIsVisibleById.find 7 = some e ∧
        e.1.x = exampleBlob.x ∧ e.1.y = exampleBlob.y ∧
        e.1.squaredSigmaX = exampleBlob.squaredSigmaX ∧
        e.1.sigmaXY = exampleBlob.sigmaXY ∧ e.1.squaredSigmaY = exampleBlob.squaredSigmaY ∧
        e.2 = false) ∧
      d1.blobAndIsVisibleById.ids = exampleDisplay.blobAndIsVisibleById.ids :=
  ⟨rfl, rfl, updateBlob_spec exampleDisplay 7 exampleBlob (ProtectedBlob.mk 1 2 3 4 5, false)
    rfl rfl⟩

/-- C3. Called with the access flag clear on an identifier that is in the
registry, `demoteBlob` returns; the entry of `id` is still in the registry,
with the five geometry fields of `blob` and the visible flag false, and the
identifiers of the registry are the same as before. -/
theorem demoteBlob_spec (d : BlobDisplay R) (id : Nat) (blob : ProtectedBlob R)
    (old : BlobAndIsVisible R) (hfree : d.accessingBlobs = false)
    (hfind : d.blobAndIsVisibleById.find id = some old) :
    ∃ d1, demoteBlob d id blob = .returned d1 ∧
      (∃ e, d1.blobAndIsVisibleById.find id = some e ∧
        e.1.x = blob.x ∧ e.1.y = blob.y ∧ e.1.squaredSigmaX = blob.squaredSigmaX ∧
        e.1.sigmaXY = blob.sigmaXY ∧ e.1.squaredSigmaY = blob.squaredSigmaY ∧
        e.2 = false) ∧
      d1.blobAndIsVisibleById.ids = d.blobAndIsVisibleById.ids := by
  unfold demoteBlob
  simp only [hfree, hfind]
  refine ⟨_, rfl, ⟨_, BlobMap.find_modify_self _ _ _ _ hfind, ?_⟩, BlobMap.ids_modify _ _ _⟩
  simp

/-- An instance of C3 on a visible entry. -/
theorem demoteBlob_spec_witness :
    exampleDisplay.accessingBlobs = false ∧
    exampleDisplay.blobAndIsVisibleById.find 9 = some (ProtectedBlob.mk 10 20 30 40 50, true) ∧
    ∃ d1, demoteBlob exampleDisplay 9 exampleBlob = .returned d1 ∧
      (∃ e, d1.blobAndIsVisibleById.find 9 = some e ∧
        e.1.x = exampleBlob.x ∧ e.1.y = exampleBlob.y ∧
        e.1.squaredSigmaX = exampleBlob.squaredSigmaX ∧
        e.1.sigmaXY = exampleBlob.sigmaXY ∧ e.1.squaredSigmaY = exampleBlob.squaredSigmaY ∧
        e.2 = false) ∧
      d1.blobAndIsVisibleById.ids = exampleDisplay.blobAndIsVisibleById.ids :=
  ⟨rfl, rfl, demoteBlob_spec exampleDisplay 9 exampleBlob (ProtectedBlob.mk 10 20 30 40 50, true)
    rfl rfl⟩

/-- C4. Called with the access flag clear, `deleteBlob` returns (it has no
error path) and `id` is absent from the registry it leaves; when `id` was
absent already the display is left as it was; and a second `deleteBlob` of
`id` returns the display the first one left. -/
theorem deleteBlob_spec (d : BlobDisplay R) (id : Nat) (blob blob2 : ProtectedBlob R)
    (hfree : d.accessingBlobs = false) :
    ∃ d1, deleteBlob d id blob = .returned d1 ∧
      d1.blobAndIsVisibleById.find id = none ∧
      (d.blobAndIsVisibleById.find id = none → d1 = d) ∧
      deleteBlob d1 id blob2 = .returned d1 := by
  unfold deleteBlob
  simp only [hfree]
  refine ⟨_, rfl, BlobMap.find_erase_self _ _, ?_, ?_⟩
  · intro habsent
    cases d with
    | mk cs pen brush conf m flag =>
        simp only at hfree habsent
        simp [hfree, BlobMap.erase_of_absent m id habsent]
  · simp [BlobMap.erase_of_absent _ id (BlobMap.find_erase_self _ id)]

/-- An instance of C4 on an identifier that is present. -/
theorem deleteBlob_spec_witness :
    exampleDisplay.accessingBlobs = false ∧
    ∃ d1, deleteBlob exampleDisplay 7 exampleBlob = .returned d1 ∧
      d1.blobAndIsVisibleById.find 7 = none ∧
      (exampleDisplay.blobAndIsVisibleById.find 7 = none → d1 = exampleDisplay) ∧
      deleteBlob d1 7 exampleBlob = .returned d1 :=
  ⟨rfl, deleteBlob_spec exampleDisplay 7 exampleBlob exampleBlob rfl⟩

end OperationTheorems

/-! ## Sequences of calls: the visible flag -/

section CallTheorems

variable {R : Type}

theorem promoteBlob_visible (d : BlobDisplay R) (id : Nat) (blob : ProtectedBlob R)
    (hfree : d.accessingBlobs = false) :
    ∃ d1, promoteBlob d id blob = .returned d1 ∧ d1.accessingBlobs = false ∧
      d1.visibleOf id = some true := by
  unfold promoteBlob BlobDisplay.visibleOf
  cases hfind : d.blobAndIsVisibleById.find id with
  | none =>
      simp only [hfree]
      refine ⟨_, rfl, rfl, ?_⟩
      simp [BlobMap.find_insert_self _ _ _ hfind]
  | some old =>
      simp only [hfree]
      refine ⟨_, rfl, rfl, ?_⟩
      simp [BlobMap.find_modify_self _ _ _ _ hfind]

theorem updateBlob_visible (d : BlobDisplay R) (id : Nat) (blob : ProtectedBlob R)
    (hfree : d.accessingBlobs = false) (hin : d.contains id = true) :
    ∃ d1, updateBlob d id blob = .returned d1 ∧ d1.accessingBlobs = false ∧
      d1.visibleOf id = d.visibleOf id := by
  unfold BlobDisplay.contains at hin
  unfold updateBlob BlobDisplay.visibleOf
  cases hfind : d.blobAndIsVisibleById.find id with
  | none => simp [hfind] at hin
  | some old =>
      simp only [hfree]
      refine ⟨_, rfl, rfl, ?_⟩
      simp [BlobMap.find_modify_self _ _ _ _ hfind]

theorem demoteBlob_visible (d : BlobDisplay R) (id : Nat) (blob : ProtectedBlob R)
    (hfree : d.accessingBlobs = false) (hin : d.contains id = true) :
    ∃ d1, demoteBlob d id blob = .returned d1 ∧ d1.accessingBlobs = false ∧
      d1.visibleOf id = some false := by
  unfold BlobDisplay.contains at hin
  unfold demoteBlob BlobDisplay.visibleOf
  cases hfind : d.blobAndIsVisibleById.find id with
  | none => simp [hfind] at hin
  | some old =>
      simp only [hfree]
      refine ⟨_, rfl, rfl, ?_⟩
      simp [BlobMap.find_modify_self _ _ _ _ hfind]

/-- The visible flag after a run of calls on `id`: what the last promote or
demote of the run set, and the flag of the start when the run has neither. -/
theorem runCalls_visible (id : Nat) (calls : List (Call R)) :
    ∀ d : BlobDisplay R, d.accessingBlobs = false → presentWhenCalled d id calls = true →
      ∃ d1, runCalls d id calls = .returned d1 ∧ d1.accessingBlobs = false ∧
        d1.visibleOf id =
          (match lastPromoteOrDemote calls with
            | some b => some b
            | none => d.visibleOf id) := by
  induction calls with
  | nil =>
      intro d hfree _
      exact ⟨d, rfl, hfree, rfl⟩
  | cons c cs ih =>
      intro d hfree hpre
      have step : ∃ d1, c.apply d id = .returned d1 ∧ d1.accessingBlobs = false ∧
          d1.visibleOf id =
            (match c with
              | .promote _ => some true
              | .update _ => d.visibleOf id
              | .demote _ => some false) := by
        cases c with
        | promote blob => exact promoteBlob_visible d id blob hfree
        | update blob =>
            have hin : d.contains id = true := by
              simp [presentWhenCalled, Call.isUpdateOrDemote] at hpre
              exact hpre.1
            exact updateBlob_visible d id blob hfree hin
        | demote blob =>
            have hin : d.contains id = true := by
              simp [presentWhenCalled, Call.isUpdateOrDemote] at hpre
              exact hpre.1
            exact demoteBlob_visible d id blob hfree hin
      obtain ⟨d1, hret, hfree1, hvis1⟩ := step
      have hpre1 : presentWhenCalled d1 id cs = true := by
        simp only [presentWhenCalled, hret, Bool.and_eq_true] at hpre
        exact hpre.2
      obtain ⟨d2, hrun, hfree2, hvis2⟩ := ih d1 hfree1 hpre1
      refine ⟨d2, ?_, hfree2, ?_⟩
      · simp only [runCalls, hret]
        exact hrun
      · rw [hvis2]
        simp only [lastPromoteOrDemote]
        cases lastPromoteOrDemote cs with
        | some b => rfl
        | none =>
            simp only [hvis1]
            cases c <;> rfl

/-- C5. For every run of `promoteBlob`, `updateBlob` and `demoteBlob` calls on
one identifier, started with the access flag clear and with the identifier in
the registry at every `updateBlob` and `demoteBlob` call, every call returns and
the visible flag of the entry at the end is the one the last promote-or-demote
call of the run set: it is true if and only if that call was a promote.  A run
without promote or demote (updates only) leaves the flag as it was. -/
theorem visibility_toggling (d : BlobDisplay R) (id : Nat) (calls : List (Call R))
    (hfree : d.accessingBlobs = false) (hpre : presentWhenCalled d id calls = true) :
    ∃ d1, runCalls d id calls = .returned d1 ∧
      (∀ b, lastPromoteOrDemote calls = some b → d1.visibleOf id = some b) ∧
      ((lastPromoteOrDemote calls).isSome = true →
        (d1.visibleOf id = some true ↔ lastPromoteOrDemote calls = some true)) ∧
      (lastPromoteOrDemote calls = none → d1.visibleOf id = d.visibleOf id) := by
  obtain ⟨d1, hrun, _, hvis⟩ := runCalls_visible id calls d hfree hpre
  refine ⟨d1, hrun, ?_, ?_, ?_⟩
  · intro b hb
    rw [hvis, hb]
  · intro hsome
    rw [hvis]
    cases hl : lastPromoteOrDemote calls with
    | none => simp [hl] at hsome
    | some b => simp
  · intro hnone
    rw [hvis, hnone]

/-- An instance of C5: update, demote, promote, update on a hidden entry. -/
theorem visibility_toggling_witness :
    exampleDisplay.accessingBlobs = false ∧
    presentWhenCalled exampleDisplay 7
      [.update exampleBlob, .demote exampleBlob, .promote exampleBlob, .update exampleBlob]
      = true ∧
    ∃ d1, runCalls exampleDisplay 7
        [.update exampleBlob, .demote exampleBlob, .promote exampleBlob, .update exampleBlob]
        = .returned d1 ∧
      (∀ b, lastPromoteOrDemote
          [Call.update exampleBlob, .demote exampleBlob, .promote exampleBlob, .update exampleBlob]
          = some b → d1.visibleOf 7 = some b) ∧
      ((lastPromoteOrDemote
          [Call.update exampleBlob, .demote exampleBlob, .promote exampleBlob, .update exampleBlob]
          ).isSome = true →
        (d1.visibleOf 7 = some true ↔ lastPromoteOrDemote
          [Call.update exampleBlob, .demote exampleBlob, .promote exampleBlob, .update exampleBlob]
          = some true)) ∧
      (lastPromoteOrDemote
          [Call.update exampleBlob, .demote exampleBlob, .promote exampleBlob, .update exampleBlob]
          = none → d1.visibleOf 7 = exampleDisplay.visibleOf 7) :=
  ⟨rfl, by decide, visibility_toggling exampleDisplay 7 _ rfl (by decide)⟩

end CallTheorems

/-! ## The render pass -/

section PaintTheorems

theorem filter_isDraw_paintEntry (d : BlobDisplay ℝ) (e : Nat × BlobAndIsVisible ℝ) :
    (paintEntry d e).filter PaintEvent.isDraw = if e.2.2 then [drawOf d e] else [] := by
  unfold paintEntry drawOf
  cases e.2.2 <;> simp [PaintEvent.isDraw]

theorem flatMap_filter_isDraw_paintEntry (d : BlobDisplay ℝ) (m : BlobMap ℝ) :
    (m.flatMap (paintEntry d)).filter PaintEvent.isDraw
      = (m.filter (fun e => e.2.2)).map (drawOf d) := by
  induction m with
  | nil => rfl
  | cons e rest ih =>
      rw [List.flatMap_cons, List.filter_append, ih, filter_isDraw_paintEntry]
      cases h : e.2.2 <;> simp [List.filter_cons, h]

/-- C6. Called with the access flag clear, `paint` returns and leaves the
display (identifiers, geometry, visibility) as it was; the ellipse draw
commands it issues are, in iteration order, exactly one for each entry whose
visible flag is true, and none for an entry whose flag is false: the loop body
issues one draw command for a visible entry and no event at all for a hidden
one, and the number of draw commands is the number of visible entries. -/
theorem paint_spec (d : BlobDisplay ℝ) (hfree : d.accessingBlobs = false) :
    ∃ events, paint d = .returned (events, d) ∧
      events.filter PaintEvent.isDraw
        = (d.blobAndIsVisibleById.filter (fun e => e.2.2)).map (drawOf d) ∧
      events.countP PaintEvent.isDraw = d.blobAndIsVisibleById.countP (fun e => e.2.2) ∧
      (∀ e ∈ d.blobAndIsVisibleById,
        (e.2.2 = true → (paintEntry d e).countP PaintEvent.isDraw = 1) ∧
        (e.2.2 = false → paintEntry d e = [])) := by
  have hfilter : ([PaintEvent.setPen d.pen, .setBrush d.brush, .setRenderHint, .lockAcquire]
        ++ d.blobAndIsVisibleById.flatMap (paintEntry d) ++ [PaintEvent.lockRelease]).filter
        PaintEvent.isDraw
      = (d.blobAndIsVisibleById.filter (fun e => e.2.2)).map (drawOf d) := by
    rw [List.filter_append, List.filter_append, flatMap_filter_isDraw_paintEntry]
    simp [PaintEvent.isDraw]
  refine ⟨_, ?_, hfilter, ?_, ?_⟩
  · unfold paint
    simp only [hfree]
    cases d with
    | mk cs pen brush conf m flag =>
        simp only at hfree
        simp [hfree]
  · rw [List.countP_eq_length_filter, hfilter, List.length_map, List.countP_eq_length_filter]
  · intro e _
    constructor
    · intro hv
      rw [List.countP_eq_length_filter, filter_isDraw_paintEntry]
      simp [hv]
    · intro hv
      simp [paintEntry, hv]

/-- An instance of C6 on a display with two visible blobs and a hidden one. -/
theorem paint_spec_witness :
    exampleDisplayReal.accessingBlobs = false ∧
    ∃ events, paint exampleDisplayReal = .returned (events, exampleDisplayReal) ∧
      events.filter PaintEvent.isDraw
        = (exampleDisplayReal.blobAndIsVisibleById.filter (fun e => e.2.2)).map
            (drawOf exampleDisplayReal) ∧
      events.countP PaintEvent.isDraw
        = exampleDisplayReal.blobAndIsVisibleById.countP (fun e => e.2.2) ∧
      (∀ e ∈ exampleDisplayReal.blobAndIsVisibleById,
        (e.2.2 = true → (paintEntry exampleDisplayReal e).countP PaintEvent.isDraw = 1) ∧
        (e.2.2 = false → paintEntry exampleDisplayReal e = [])) :=
  ⟨rfl, paint_spec exampleDisplayReal rfl⟩

end PaintTheorems

/-! ## The ellipse of a blob -/

section EllipseTheorems

theorem radicand_nonneg (blob : ProtectedBlob ℝ) :
    0 ≤ (blob.squaredSigmaX - blob.squaredSigmaY) ^ 2 + 4 * blob.sigmaXY ^ 2 := by
  positivity

theorem deltaSquareRoot_nonneg (blob : ProtectedBlob ℝ) : 0 ≤ deltaSquareRoot blob := by
  unfold deltaSquareRoot
  positivity

theorem deltaSquareRoot_sq (blob : ProtectedBlob ℝ) :
    deltaSquareRoot blob ^ 2
      = ((blob.squaredSigmaX - blob.squaredSigmaY) ^ 2 + 4 * blob.sigmaXY ^ 2) / 4 := by
  unfold deltaSquareRoot
  rw [div_pow, Real.sq_sqrt (radicand_nonneg blob)]
  norm_num

theorem deltaSquareRoot_le_firstOrderCoefficient (blob : ProtectedBlob ℝ)
    (hpsd : PositiveSemidefinite blob) :
    deltaSquareRoot blob ≤ firstOrderCoefficient blob := by
  obtain ⟨hx, hy, hxy⟩ := hpsd
  have hmean : 0 ≤ firstOrderCoefficient blob := by
    unfold firstOrderCoefficient
    linarith
  have hsq : deltaSquareRoot blob ^ 2 ≤ firstOrderCoefficient blob ^ 2 := by
    rw [deltaSquareRoot_sq]
    unfold firstOrderCoefficient
    nlinarith
  exact le_of_sq_le_sq hsq hmean

theorem characteristicPolynomial_factor (blob : ProtectedBlob ℝ) (l : ℝ) :
    characteristicPolynomial blob l
      = (l - (firstOrderCoefficient blob + deltaSquareRoot blob))
        * (l - (firstOrderCoefficient blob - deltaSquareRoot blob)) := by
  have hsq := deltaSquareRoot_sq blob
  unfold characteristicPolynomial firstOrderCoefficient
  linear_combination hsq

/-- C7. For a positive-semidefinite covariance and a confidence `k ≥ 0`, both
square roots of `ellipseFromBlob` are taken of non-negative numbers and the
result has major radius ≥ minor radius ≥ 0. -/
theorem ellipse_radii_ordered (blob : ProtectedBlob ℝ) (confidence : ℝ)
    (hpsd : PositiveSemidefinite blob) (hk : 0 ≤ confidence) :
    0 ≤ firstOrderCoefficient blob - deltaSquareRoot blob ∧
    0 ≤ firstOrderCoefficient blob + deltaSquareRoot blob ∧
    0 ≤ (ellipseFromBlob blob confidence).2.1 ∧
    (ellipseFromBlob blob confidence).2.1 ≤ (ellipseFromBlob blob confidence).1 := by
  have hle := deltaSquareRoot_le_firstOrderCoefficient blob hpsd
  have hd := deltaSquareRoot_nonneg blob
  refine ⟨by linarith, by linarith, ?_, ?_⟩
  · exact mul_nonneg hk (Real.sqrt_nonneg _)
  · exact mul_le_mul_of_nonneg_left (Real.sqrt_le_sqrt (by linarith)) hk

/-- An instance of C7: variances 2 and 2, covariance 1, confidence 1.96. -/
theorem ellipse_radii_ordered_witness :
    PositiveSemidefinite (ProtectedBlob.mk 0 0 2 1 2) ∧ (0 : ℝ) ≤ 1.96 ∧
    0 ≤ firstOrderCoefficient (ProtectedBlob.mk 0 0 2 1 2)
        - deltaSquareRoot (ProtectedBlob.mk 0 0 2 1 2) ∧
    0 ≤ firstOrderCoefficient (ProtectedBlob.mk 0 0 2 1 2)
        + deltaSquareRoot (ProtectedBlob.mk 0 0 2 1 2) ∧
    0 ≤ (ellipseFromBlob (ProtectedBlob.mk 0 0 2 1 2) 1.96).2.1 ∧
    (ellipseFromBlob (ProtectedBlob.mk 0 0 2 1 2) 1.96).2.1
      ≤ (ellipseFromBlob (ProtectedBlob.mk 0 0 2 1 2) 1.96).1 :=
  have hpsd : PositiveSemidefinite (ProtectedBlob.mk 0 0 2 1 2) := by
    norm_num [PositiveSemidefinite]
  have hk : (0 : ℝ) ≤ 1.96 := by norm_num
  ⟨hpsd, hk, ellipse_radii_ordered (ProtectedBlob.mk 0 0 2 1 2) 1.96 hpsd hk⟩

/-- C9. The two numbers under the square roots of `ellipseFromBlob`,
`firstOrderCoefficient + deltaSquareRoot` and `firstOrderCoefficient -
deltaSquareRoot`, are the eigenvalues of the covariance matrix: their sum is
its trace, their product its determinant, each is a root of the characteristic
polynomial and the polynomial has no other root; the first is the larger one.
For a positive-semidefinite covariance the squared major radius is the squared
confidence times the larger eigenvalue and the squared minor radius the squared
confidence times the smaller. -/
theorem radicands_are_eigenvalues (blob : ProtectedBlob ℝ) (confidence : ℝ) :
    (firstOrderCoefficient blob + deltaSquareRoot blob)
        + (firstOrderCoefficient blob - deltaSquareRoot blob)
      = blob.squaredSigmaX + blob.squaredSigmaY ∧
    (firstOrderCoefficient blob + deltaSquareRoot blob)
        * (firstOrderCoefficient blob - deltaSquareRoot blob)
      = blob.squaredSigmaX * blob.squaredSigmaY - blob.sigmaXY ^ 2 ∧
    characteristicPolynomial blob (firstOrderCoefficient blob + deltaSquareRoot blob) = 0 ∧
    characteristicPolynomial blob (firstOrderCoefficient blob - deltaSquareRoot blob) = 0 ∧
    (∀ l, characteristicPolynomial blob l = 0 ↔
      l = firstOrderCoefficient blob + deltaSquareRoot blob ∨
      l = firstOrderCoefficient blob - deltaSquareRoot blob) ∧
    firstOrderCoefficient blob - deltaSquareRoot blob
      ≤ firstOrderCoefficient blob + deltaSquareRoot blob ∧
    (PositiveSemidefinite blob →
      (ellipseFromBlob blob confidence).1 ^ 2
        = confidence ^ 2 * (firstOrderCoefficient blob + deltaSquareRoot blob) ∧
      (ellipseFromBlob blob confidence).2.1 ^ 2
        = confidence ^ 2 * (firstOrderCoefficient blob - deltaSquareRoot blob)) := by
  have hsq := deltaSquareRoot_sq blob
  have hd := deltaSquareRoot_nonneg blob
  refine ⟨?_, ?_, ?_, ?_, ?_, by linarith, ?_⟩
  · unfold firstOrderCoefficient
    ring
  · unfold firstOrderCoefficient
    linear_combination (-1 : ℝ) * hsq
  · rw [characteristicPolynomial_factor]
    ring
  · rw [characteristicPolynomial_factor]
    ring
  · intro l
    rw [characteristicPolynomial_factor, mul_eq_zero, sub_eq_zero, sub_eq_zero]
  · intro hpsd
    have hle := deltaSquareRoot_le_firstOrderCoefficient blob hpsd
    unfold ellipseFromBlob
    constructor
    · simp only
      rw [mul_pow, Real.sq_sqrt (by linarith)]
    · simp only
      rw [mul_pow, Real.sq_sqrt (by linarith)]

/-- An instance of C9 at a positive-semidefinite covariance: the squared radii
for variances 2 and 2, covariance 1 and confidence 3. -/
theorem radicands_are_eigenvalues_witness :
    PositiveSemidefinite (ProtectedBlob.mk 0 0 2 1 2) ∧
    (ellipseFromBlob (ProtectedBlob.mk 0 0 2 1 2) 3).1 ^ 2
      = 3 ^ 2 * (firstOrderCoefficient (ProtectedBlob.mk 0 0 2 1 2)
          + deltaSquareRoot (ProtectedBlob.mk 0 0 2 1 2)) ∧
    (ellipseFromBlob (ProtectedBlob.mk 0 0 2 1 2) 3).2.1 ^ 2
      = 3 ^ 2 * (firstOrderCoefficient (ProtectedBlob.mk 0 0 2 1 2)
          - deltaSquareRoot (ProtectedBlob.mk 0 0 2 1 2)) :=
  have hpsd : PositiveSemidefinite (ProtectedBlob.mk 0 0 2 1 2) := by
    norm_num [PositiveSemidefinite]
  ⟨hpsd, (radicands_are_eigenvalues (ProtectedBlob.mk 0 0 2 1 2) 3).2.2.2.2.2.2 hpsd⟩

/-- C10. For a fixed covariance and confidences `k > 0` and `k2 > 0`, the major
and the minor radius returned for `k` are `k / k2` times those returned for
`k2`. -/
theorem radii_scale_with_confidence (blob : ProtectedBlob ℝ) (k k2 : ℝ)
    (_hk : 0 < k) (hk2 : 0 < k2) :
    (ellipseFromBlob blob k).1 = k / k2 * (ellipseFromBlob blob k2).1 ∧
    (ellipseFromBlob blob k).2.1 = k / k2 * (ellipseFromBlob blob k2).2.1 := by
  have hne : k2 ≠ 0 := ne_of_gt hk2
  unfold ellipseFromBlob
  constructor
  · simp only
    field_simp
    ring
  · simp only
    field_simp
    ring

/-- An instance of C10: confidences 1.96 and 3. -/
theorem radii_scale_with_confidence_witness :
    (0 : ℝ) < 1.96 ∧ (0 : ℝ) < 3 ∧
    (ellipseFromBlob (ProtectedBlob.mk 0 0 2 1 2) 1.96).1
      = 1.96 / 3 * (ellipseFromBlob (ProtectedBlob.mk 0 0 2 1 2) 3).1 ∧
    (ellipseFromBlob (ProtectedBlob.mk 0 0 2 1 2) 1.96).2.1
      = 1.96 / 3 * (ellipseFromBlob (ProtectedBlob.mk 0 0 2 1 2) 3).2.1 :=
  have hk : (0 : ℝ) < 1.96 := by norm_num
  have hk2 : (0 : ℝ) < 3 := by norm_num
  ⟨hk, hk2, radii_scale_with_confidence (ProtectedBlob.mk 0 0 2 1 2) 1.96 3 hk hk2⟩

/-- The doubled angle of `ellipseFromBlob`, the arctangent plus the `π` of the
branch `squaredSigmaY > squaredSigmaX`, has cosine and sine proportional to
`squaredSigmaX - squaredSigmaY` and `2 * sigmaXY`. -/
theorem doubled_angle (a b c : ℝ) (hne : a ≠ b) :
    0 < Real.sqrt ((a - b) ^ 2 + 4 * c ^ 2) ∧
    Real.sqrt ((a - b) ^ 2 + 4 * c ^ 2)
        * Real.cos (Real.arctan (2 * c / (a - b)) + (if b > a then Real.pi else 0))
      = a - b ∧
    Real.sqrt ((a - b) ^ 2 + 4 * c ^ 2)
        * Real.sin (Real.arctan (2 * c / (a - b)) + (if b > a then Real.pi else 0))
      = 2 * c := by
  have hab : a - b ≠ 0 := sub_ne_zero.mpr hne
  have habs : 0 < |a - b| := abs_pos.mpr hab
  have hrad : 0 < (a - b) ^ 2 + 4 * c ^ 2 := by positivity
  have hD : 0 < Real.sqrt ((a - b) ^ 2 + 4 * c ^ 2) := Real.sqrt_pos.mpr hrad
  have hsqrt : Real.sqrt (1 + (2 * c / (a - b)) ^ 2)
      = Real.sqrt ((a - b) ^ 2 + 4 * c ^ 2) / |a - b| := by
    have h1 : 1 + (2 * c / (a - b)) ^ 2 = ((a - b) ^ 2 + 4 * c ^ 2) / |a - b| ^ 2 := by
      rw [sq_abs]
      field_simp
      ring
    rw [h1, Real.sqrt_div (le_of_lt hrad), Real.sqrt_sq (le_of_lt habs)]
  have hcos : Real.cos (Real.arctan (2 * c / (a - b)))
      = |a - b| / Real.sqrt ((a - b) ^ 2 + 4 * c ^ 2) := by
    rw [Real.cos_arctan, hsqrt, one_div, inv_div]
  have hsin : Real.sin (Real.arctan (2 * c / (a - b)))
      = 2 * c / (a - b) * (|a - b| / Real.sqrt ((a - b) ^ 2 + 4 * c ^ 2)) := by
    rw [Real.sin_arctan, hsqrt, div_div_eq_mul_div, mul_div_assoc]
  refine ⟨hD, ?_, ?_⟩
  · by_cases hlt : b > a
    · rw [if_pos hlt, Real.cos_add_pi, hcos, abs_of_neg (by linarith)]
      field_simp
    · have hgt : b < a := lt_of_le_of_ne (not_lt.mp hlt) (Ne.symm hne)
      rw [if_neg hlt, add_zero, hcos, abs_of_pos (by linarith)]
      field_simp
  · by_cases hlt : b > a
    · rw [if_pos hlt, Real.sin_add_pi, hsin, abs_of_neg (by linarith)]
      field_simp
      ring
    · have hgt : b < a := lt_of_le_of_ne (not_lt.mp hlt) (Ne.symm hne)
      rw [if_neg hlt, add_zero, hsin, abs_of_pos (by linarith)]
      field_simp

/-- C8. For a covariance with `squaredSigmaX ≠ squaredSigmaY`, the angle `t`
that `ellipseFromBlob` returns is the direction of the major axis: the unit
vector `(cos t, sin t)` is mapped by the covariance matrix
`[[squaredSigmaX, sigmaXY], [sigmaXY, squaredSigmaY]]` to itself times
`firstOrderCoefficient + deltaSquareRoot`, the larger eigenvalue.  This holds
in the branch `squaredSigmaX > squaredSigmaY` and in the branch
`squaredSigmaY > squaredSigmaX`, which adds `π` before halving. -/
theorem angle_is_major_axis (blob : ProtectedBlob ℝ) (confidence : ℝ)
    (hne : blob.squaredSigmaX ≠ blob.squaredSigmaY) :
    blob.squaredSigmaX * Real.cos (ellipseFromBlob blob confidence).2.2
        + blob.sigmaXY * Real.sin (ellipseFromBlob blob confidence).2.2
      = (firstOrderCoefficient blob + deltaSquareRoot blob)
        * Real.cos (ellipseFromBlob blob confidence).2.2 ∧
    blob.sigmaXY * Real.cos (ellipseFromBlob blob confidence).2.2
        + blob.squaredSigmaY * Real.sin (ellipseFromBlob blob confidence).2.2
      = (firstOrderCoefficient blob + deltaSquareRoot blob)
        * Real.sin (ellipseFromBlob blob confidence).2.2 ∧
    Real.cos (ellipseFromBlob blob confidence).2.2 ^ 2
        + Real.sin (ellipseFromBlob blob confidence).2.2 ^ 2 = 1 := by
  obtain ⟨_, hc, hs⟩ := doubled_angle blob.squaredSigmaX blob.squaredSigmaY blob.sigmaXY hne
  have hangle : (ellipseFromBlob blob confidence).2.2
      = (Real.arctan (2 * blob.sigmaXY / (blob.squaredSigmaX - blob.squaredSigmaY))
          + (if blob.squaredSigmaY > blob.squaredSigmaX then Real.pi else 0)) / 2 := by
    unfold ellipseFromBlob
    simp only
    rw [if_neg (Ne.symm hne)]
  generalize hθ : Real.arctan (2 * blob.sigmaXY / (blob.squaredSigmaX - blob.squaredSigmaY))
      + (if blob.squaredSigmaY > blob.squaredSigmaX then Real.pi else 0) = θ at hc hs hangle
  rw [hangle]
  have hcosSub : Real.cos (θ / 2) = Real.cos θ * Real.cos (θ / 2) + Real.sin θ * Real.sin (θ / 2) := by
    have h := Real.cos_sub θ (θ / 2)
    rw [show θ - θ / 2 = θ / 2 by ring] at h
    exact h
  have hsinSub : Real.sin (θ / 2) = Real.sin θ * Real.cos (θ / 2) - Real.cos θ * Real.sin (θ / 2) := by
    have h := Real.sin_sub θ (θ / 2)
    rw [show θ - θ / 2 = θ / 2 by ring] at h
    exact h
  unfold firstOrderCoefficient deltaSquareRoot
  refine ⟨?_, ?_, Real.cos_sq_add_sin_sq _⟩
  · linear_combination (-(Real.cos (θ / 2)) / 2) * hc - (Real.sin (θ / 2) / 2) * hs
      - (Real.sqrt ((blob.squaredSigmaX - blob.squaredSigmaY) ^ 2 + 4 * blob.sigmaXY ^ 2) / 2)
        * hcosSub
  · linear_combination (Real.sin (θ / 2) / 2) * hc - (Real.cos (θ / 2) / 2) * hs
      - (Real.sqrt ((blob.squaredSigmaX - blob.squaredSigmaY) ^ 2 + 4 * blob.sigmaXY ^ 2) / 2)
        * hsinSub

/-- An instance of C8 in the branch that adds `π`: variances 1 and 4,
covariance 1. -/
theorem angle_is_major_axis_witness :
    exampleTilted.squaredSigmaX ≠ exampleTilted.squaredSigmaY ∧
    exampleTilted.squaredSigmaX * Real.cos (ellipseFromBlob exampleTilted 1).2.2
        + exampleTilted.sigmaXY * Real.sin (ellipseFromBlob exampleTilted 1).2.2
      = (firstOrderCoefficient exampleTilted + deltaSquareRoot exampleTilted)
        * Real.cos (ellipseFromBlob exampleTilted 1).2.2 ∧
    exampleTilted.sigmaXY * Real.cos (ellipseFromBlob exampleTilted 1).2.2
        + exampleTilted.squaredSigmaY * Real.sin (ellipseFromBlob exampleTilted 1).2.2
      = (firstOrderCoefficient exampleTilted + deltaSquareRoot exampleTilted)
        * Real.sin (ellipseFromBlob exampleTilted 1).2.2 ∧
    Real.cos (ellipseFromBlob exampleTilted 1).2.2 ^ 2
        + Real.sin (ellipseFromBlob exampleTilted 1).2.2 ^ 2 = 1 :=
  have hne : exampleTilted.squaredSigmaX ≠ exampleTilted.squaredSigmaY := by
    norm_num [exampleTilted]
  ⟨hne, angle_is_major_axis exampleTilted 1 hne⟩

/-! ### Diagonal and circular covariances -/

theorem sqrt_four : Real.sqrt 4 = 2 := by
  rw [show (4 : ℝ) = 2 ^ 2 by norm_num]
  exact Real.sqrt_sq (by norm_num)

theorem deltaSquareRoot_of_diagonal (blob : ProtectedBlob ℝ) (hdiag : blob.sigmaXY = 0) :
    deltaSquareRoot blob = |blob.squaredSigmaX - blob.squaredSigmaY| / 2 := by
  unfold deltaSquareRoot
  rw [hdiag]
  rw [show (blob.squaredSigmaX - blob.squaredSigmaY) ^ 2 + 4 * (0 : ℝ) ^ 2
      = (blob.squaredSigmaX - blob.squaredSigmaY) ^ 2 by ring]
  rw [Real.sqrt_sq_eq_abs]

/-- The angle of `ellipseFromBlob` is `ellipseAngleWith` at the division of the
reals. -/
theorem ellipseFromBlob_angle (blob : ProtectedBlob ℝ) (confidence : ℝ) :
    (ellipseFromBlob blob confidence).2.2 = ellipseAngleWith (fun a b => a / b) blob :=
  rfl

/-- C11. For a diagonal covariance (`sigmaXY = 0`) with unequal non-negative
variances and any confidence `k`, `ellipseFromBlob` returns the major radius
`k * sqrt (max squaredSigmaX squaredSigmaY)`, the minor radius
`k * sqrt (min squaredSigmaX squaredSigmaY)`, and the angle `0` when
`squaredSigmaX > squaredSigmaY` but `π / 2` when `squaredSigmaY >
squaredSigmaX`; the minor square root is taken of a non-negative number. -/
theorem diagonal_covariance_ellipse (blob : ProtectedBlob ℝ) (k : ℝ)
    (hdiag : blob.sigmaXY = 0) (hne : blob.squaredSigmaX ≠ blob.squaredSigmaY)
    (hx : 0 ≤ blob.squaredSigmaX) (hy : 0 ≤ blob.squaredSigmaY) :
    0 ≤ firstOrderCoefficient blob - deltaSquareRoot blob ∧
    (ellipseFromBlob blob k).1 = k * Real.sqrt (max blob.squaredSigmaX blob.squaredSigmaY) ∧
    (ellipseFromBlob blob k).2.1 = k * Real.sqrt (min blob.squaredSigmaX blob.squaredSigmaY) ∧
    (blob.squaredSigmaX > blob.squaredSigmaY → (ellipseFromBlob blob k).2.2 = 0) ∧
    (blob.squaredSigmaY > blob.squaredSigmaX → (ellipseFromBlob blob k).2.2 = Real.pi / 2) := by
  have hdelta := deltaSquareRoot_of_diagonal blob hdiag
  have hmax : firstOrderCoefficient blob + deltaSquareRoot blob
      = max blob.squaredSigmaX blob.squaredSigmaY := by
    rw [hdelta]
    unfold firstOrderCoefficient
    rcases lt_or_gt_of_ne hne with h | h
    · rw [abs_of_neg (by linarith), max_eq_right (le_of_lt h)]
      ring
    · rw [abs_of_pos (by linarith), max_eq_left (le_of_lt h)]
      ring
  have hmin : firstOrderCoefficient blob - deltaSquareRoot blob
      = min blob.squaredSigmaX blob.squaredSigmaY := by
    rw [hdelta]
    unfold firstOrderCoefficient
    rcases lt_or_gt_of_ne hne with h | h
    · rw [abs_of_neg (by linarith), min_eq_left (le_of_lt h)]
      ring
    · rw [abs_of_pos (by linarith), min_eq_right (le_of_lt h)]
      ring
  refine ⟨?_, ?_, ?_, ?_, ?_⟩
  · rw [hmin]
    exact le_min hx hy
  · show k * Real.sqrt (firstOrderCoefficient blob + deltaSquareRoot blob) = _
    rw [hmax]
  · show k * Real.sqrt (firstOrderCoefficient blob - deltaSquareRoot blob) = _
    rw [hmin]
  · intro hgt
    rw [ellipseFromBlob_angle]
    unfold ellipseAngleWith
    rw [if_neg (Ne.symm hne), if_neg (not_lt.mpr (le_of_lt hgt)), hdiag]
    simp
  · intro hgt
    rw [ellipseFromBlob_angle]
    unfold ellipseAngleWith
    rw [if_neg (Ne.symm hne), if_pos hgt, hdiag]
    simp

/-- The two instances of C11 that the specification names: variances 4 and 1
give `(2, 1, 0)`, variances 1 and 4 give `(2, 1, π / 2)`, at confidence 1. -/
theorem diagonal_covariance_ellipse_witness :
    ellipseFromBlob (ProtectedBlob.mk 0 0 4 0 1) 1 = (2, 1, 0) ∧
    ellipseFromBlob (ProtectedBlob.mk 0 0 1 0 4) 1 = (2, 1, Real.pi / 2) := by
  have h1 := diagonal_covariance_ellipse (ProtectedBlob.mk 0 0 4 0 1) 1 rfl
    (by norm_num) (by norm_num) (by norm_num)
  have h2 := diagonal_covariance_ellipse (ProtectedBlob.mk 0 0 1 0 4) 1 rfl
    (by norm_num) (by norm_num) (by norm_num)
  obtain ⟨_, ha1, hb1, ht1, _⟩ := h1
  obtain ⟨_, ha2, hb2, _, ht2⟩ := h2
  have hmax1 : max (4 : ℝ) 1 = 4 := max_eq_left (by norm_num)
  have hmin1 : min (4 : ℝ) 1 = 1 := min_eq_right (by norm_num)
  have hmax2 : max (1 : ℝ) 4 = 4 := max_eq_right (by norm_num)
  have hmin2 : min (1 : ℝ) 4 = 1 := min_eq_left (by norm_num)
  simp only [hmax1, hmin1, sqrt_four, Real.sqrt_one, one_mul, mul_one] at ha1 hb1
  simp only [hmax2, hmin2, sqrt_four, Real.sqrt_one, one_mul, mul_one] at ha2 hb2
  constructor
  · exact Prod.ext ha1 (Prod.ext hb1 (ht1 (by norm_num)))
  · exact Prod.ext ha2 (Prod.ext hb2 (ht2 (by norm_num)))

/-- C12. For a circular covariance (`squaredSigmaX = squaredSigmaY = s ≥ 0`,
`sigmaXY = 0`) and any confidence `k`, `ellipseFromBlob` returns major radius
and minor radius `k * sqrt s` and the angle `π / 4`; both square roots are
taken of non-negative numbers, and the angle is `π / 4` whatever the division
by `squaredSigmaX - squaredSigmaY` would give: the division is not used. -/
theorem circular_covariance_ellipse (blob : ProtectedBlob ℝ) (k : ℝ)
    (hdiag : blob.sigmaXY = 0) (heq : blob.squaredSigmaX = blob.squaredSigmaY)
    (hs : 0 ≤ blob.squaredSigmaX) :
    (ellipseFromBlob blob k).1 = k * Real.sqrt blob.squaredSigmaX ∧
    (ellipseFromBlob blob k).2.1 = k * Real.sqrt blob.squaredSigmaX ∧
    (ellipseFromBlob blob k).2.2 = Real.pi / 4 ∧
    0 ≤ firstOrderCoefficient blob - deltaSquareRoot blob ∧
    (∀ divide : ℝ → ℝ → ℝ, ellipseAngleWith divide blob = Real.pi / 4) := by
  have hdelta : deltaSquareRoot blob = 0 := by
    rw [deltaSquareRoot_of_diagonal blob hdiag, heq]
    simp
  have hmean : firstOrderCoefficient blob = blob.squaredSigmaX := by
    unfold firstOrderCoefficient
    rw [← heq]
    ring
  have hangle : ∀ divide : ℝ → ℝ → ℝ, ellipseAngleWith divide blob = Real.pi / 4 := by
    intro divide
    unfold ellipseAngleWith
    rw [if_pos heq.symm]
  refine ⟨?_, ?_, ?_, ?_, hangle⟩
  · show k * Real.sqrt (firstOrderCoefficient blob + deltaSquareRoot blob) = _
    rw [hdelta, hmean, add_zero]
  · show k * Real.sqrt (firstOrderCoefficient blob - deltaSquareRoot blob) = _
    rw [hdelta, hmean, sub_zero]
  · rw [ellipseFromBlob_angle]
    exact hangle _
  · rw [hdelta, hmean, sub_zero]
    exact hs

/-- The instance of C12 that the specification names: variances 1 and 1 give
`(1, 1, π / 4)` at confidence 1. -/
theorem circular_covariance_ellipse_witness :
    ellipseFromBlob (ProtectedBlob.mk 0 0 1 0 1) 1 = (1, 1, Real.pi / 4) := by
  obtain ⟨ha, hb, ht, _, _⟩ := circular_covariance_ellipse (ProtectedBlob.mk 0 0 1 0 1) 1 rfl rfl
    (by norm_num)
  simp only [Real.sqrt_one, mul_one] at ha hb
  exact Prod.ext ha (Prod.ext hb ht)

/-! ### The range of the angle -/

/-- C17. The angle that `ellipseFromBlob` returns lies strictly between
`-π / 4` and `3 * π / 4`, an interval of length `π`: strictly between `-π / 4`
and `π / 4` when `squaredSigmaX > squaredSigmaY`, equal to `π / 4` when the
variances are equal, and strictly between `π / 4` and `3 * π / 4` when
`squaredSigmaY > squaredSigmaX`. -/
theorem angle_range (blob : ProtectedBlob ℝ) (confidence : ℝ) :
    (blob.squaredSigmaX > blob.squaredSigmaY →
      -(Real.pi / 4) < (ellipseFromBlob blob confidence).2.2 ∧
      (ellipseFromBlob blob confidence).2.2 < Real.pi / 4) ∧
    (blob.squaredSigmaX = blob.squaredSigmaY →
      (ellipseFromBlob blob confidence).2.2 = Real.pi / 4) ∧
    (blob.squaredSigmaY > blob.squaredSigmaX →
      Real.pi / 4 < (ellipseFromBlob blob confidence).2.2 ∧
      (ellipseFromBlob blob confidence).2.2 < 3 * Real.pi / 4) ∧
    (-(Real.pi / 4) < (ellipseFromBlob blob confidence).2.2 ∧
      (ellipseFromBlob blob confidence).2.2 < 3 * Real.pi / 4) := by
  have hlo := Real.neg_pi_div_two_lt_arctan
    (2 * blob.sigmaXY / (blob.squaredSigmaX - blob.squaredSigmaY))
  have hhi := Real.arctan_lt_pi_div_two
    (2 * blob.sigmaXY / (blob.squaredSigmaX - blob.squaredSigmaY))
  have hpi := Real.pi_pos
  have hgt : blob.squaredSigmaX > blob.squaredSigmaY →
      -(Real.pi / 4) < (ellipseFromBlob blob confidence).2.2 ∧
      (ellipseFromBlob blob confidence).2.2 < Real.pi / 4 := by
    intro h
    rw [ellipseFromBlob_angle]
    unfold ellipseAngleWith
    rw [if_neg (ne_of_lt h), if_neg (not_lt.mpr (le_of_lt h))]
    constructor <;> linarith
  have heq : blob.squaredSigmaX = blob.squaredSigmaY →
      (ellipseFromBlob blob confidence).2.2 = Real.pi / 4 := by
    intro h
    rw [ellipseFromBlob_angle]
    unfold ellipseAngleWith
    rw [if_pos h.symm]
  have hlt : blob.squaredSigmaY > blob.squaredSigmaX →
      Real.pi / 4 < (ellipseFromBlob blob confidence).2.2 ∧
      (ellipseFromBlob blob confidence).2.2 < 3 * Real.pi / 4 := by
    intro h
    rw [ellipseFromBlob_angle]
    unfold ellipseAngleWith
    rw [if_neg (ne_of_gt h), if_pos h]
    constructor <;> linarith
  refine ⟨hgt, heq, hlt, ?_⟩
  rcases lt_trichotomy blob.squaredSigmaX blob.squaredSigmaY with h | h | h
  · obtain ⟨h1, h2⟩ := hlt h
    constructor <;> linarith
  · rw [heq h]
    constructor <;> linarith
  · obtain ⟨h1, h2⟩ := hgt h
    constructor <;> linarith

/-! ### The domain of the square roots -/

theorem positiveSemidefinite_iff (blob : ProtectedBlob ℝ) :
    (0 ≤ blob.squaredSigmaX + blob.squaredSigmaY ∧
        blob.sigmaXY ^ 2 ≤ blob.squaredSigmaX * blob.squaredSigmaY)
      ↔ PositiveSemidefinite blob := by
  unfold PositiveSemidefinite
  constructor
  · rintro ⟨htrace, hdet⟩
    have hprod : 0 ≤ blob.squaredSigmaX * blob.squaredSigmaY :=
      le_trans (sq_nonneg _) hdet
    refine ⟨?_, ?_, hdet⟩
    · by_contra hneg
      have hx : blob.squaredSigmaX < 0 := not_le.mp hneg
      have hy : 0 < blob.squaredSigmaY := by linarith
      have := mul_neg_of_neg_of_pos hx hy
      linarith
    · by_contra hneg
      have hy : blob.squaredSigmaY < 0 := not_le.mp hneg
      have hx : 0 < blob.squaredSigmaX := by linarith
      have := mul_neg_of_pos_of_neg hx hy
      linarith
  · rintro ⟨hx, hy, hdet⟩
    exact ⟨by linarith, hdet⟩

theorem sqrt_sixteen : Real.sqrt 16 = 4 := by
  rw [show (16 : ℝ) = 4 ^ 2 by norm_num]
  exact Real.sqrt_sq (by norm_num)

/-- C18. The argument of the minor-radius square root, `firstOrderCoefficient -
deltaSquareRoot`, is non-negative if and only if the covariance is positive
semidefinite (non-negative trace and determinant, equivalently non-negative
variances and determinant); for such a covariance the argument of the
major-radius square root is non-negative too, and the argument of the inner
square root is always non-negative.  So all square roots are in their domain
exactly for a positive-semidefinite covariance.  Non-negative variances alone do
not give this: variances 1 and 1 with covariance 2 make the minor argument
`-1`. -/
theorem minor_radicand_nonneg_iff (blob : ProtectedBlob ℝ) :
    (0 ≤ firstOrderCoefficient blob - deltaSquareRoot blob ↔
      (0 ≤ blob.squaredSigmaX + blob.squaredSigmaY ∧
        blob.sigmaXY ^ 2 ≤ blob.squaredSigmaX * blob.squaredSigmaY)) ∧
    (0 ≤ firstOrderCoefficient blob - deltaSquareRoot blob ↔ PositiveSemidefinite blob) ∧
    ((0 ≤ blob.squaredSigmaX + blob.squaredSigmaY ∧
        blob.sigmaXY ^ 2 ≤ blob.squaredSigmaX * blob.squaredSigmaY) →
      0 ≤ firstOrderCoefficient blob + deltaSquareRoot blob) ∧
    0 ≤ (blob.squaredSigmaX - blob.squaredSigmaY) ^ 2 + 4 * blob.sigmaXY ^ 2 ∧
    ((0 ≤ (blob.squaredSigmaX - blob.squaredSigmaY) ^ 2 + 4 * blob.sigmaXY ^ 2 ∧
        0 ≤ firstOrderCoefficient blob + deltaSquareRoot blob ∧
        0 ≤ firstOrderCoefficient blob - deltaSquareRoot blob)
      ↔ PositiveSemidefinite blob) ∧
    (0 ≤ (ProtectedBlob.mk 0 0 1 2 1 : ProtectedBlob ℝ).squaredSigmaX ∧
      0 ≤ (ProtectedBlob.mk 0 0 1 2 1 : ProtectedBlob ℝ).squaredSigmaY ∧
      firstOrderCoefficient (ProtectedBlob.mk 0 0 1 2 1)
        - deltaSquareRoot (ProtectedBlob.mk 0 0 1 2 1) = -1) := by
  have hd := deltaSquareRoot_nonneg blob
  have hsq := deltaSquareRoot_sq blob
  have hiff : 0 ≤ firstOrderCoefficient blob - deltaSquareRoot blob ↔
      (0 ≤ blob.squaredSigmaX + blob.squaredSigmaY ∧
        blob.sigmaXY ^ 2 ≤ blob.squaredSigmaX * blob.squaredSigmaY) := by
    constructor
    · intro h
      have hle : deltaSquareRoot blob ≤ firstOrderCoefficient blob := by linarith
      have hmean : 0 ≤ firstOrderCoefficient blob := le_trans hd hle
      have hsqle : deltaSquareRoot blob ^ 2 ≤ firstOrderCoefficient blob ^ 2 :=
        pow_le_pow_left₀ hd hle 2
      rw [hsq] at hsqle
      unfold firstOrderCoefficient at hmean hsqle
      constructor
      · linarith
      · nlinarith
    · intro h
      have := deltaSquareRoot_le_firstOrderCoefficient blob ((positiveSemidefinite_iff blob).mp h)
      linarith
  have hiff2 : 0 ≤ firstOrderCoefficient blob - deltaSquareRoot blob ↔
      PositiveSemidefinite blob := hiff.trans (positiveSemidefinite_iff blob)
  refine ⟨hiff, hiff2, ?_, radicand_nonneg blob, ?_, ?_⟩
  · intro h
    have := hiff.mpr h
    linarith
  · constructor
    · intro h
      exact hiff2.mp h.2.2
    · intro h
      have := hiff2.mpr h
      exact ⟨radicand_nonneg blob, by linarith, this⟩
  · refine ⟨by norm_num, by norm_num, ?_⟩
    unfold firstOrderCoefficient deltaSquareRoot
    rw [show ((1 : ℝ) - 1) ^ 2 + 4 * (2 : ℝ) ^ 2 = 16 by norm_num, sqrt_sixteen]
    norm_num

/-! ### Equal variances with a non-zero covariance -/

theorem deltaSquareRoot_of_equal (blob : ProtectedBlob ℝ)
    (heq : blob.squaredSigmaX = blob.squaredSigmaY) :
    deltaSquareRoot blob = |blob.sigmaXY| := by
  unfold deltaSquareRoot
  rw [heq, show (blob.squaredSigmaY - blob.squaredSigmaY) ^ 2 + 4 * blob.sigmaXY ^ 2
      = (2 * blob.sigmaXY) ^ 2 by ring, Real.sqrt_sq_eq_abs, abs_mul]
  simp

/-- With equal variances `ellipseFromBlob` returns the angle `π / 4`, whose unit
vector the covariance matrix maps to itself times `squaredSigmaX + sigmaXY`,
while the eigenvalues under the square roots are `squaredSigmaX + |sigmaXY|`
(major) and `squaredSigmaX - |sigmaXY|` (minor). -/
theorem equal_variance_angle (blob : ProtectedBlob ℝ) (confidence : ℝ)
    (heq : blob.squaredSigmaX = blob.squaredSigmaY) :
    (ellipseFromBlob blob confidence).2.2 = Real.pi / 4 ∧
    blob.squaredSigmaX * Real.cos (Real.pi / 4) + blob.sigmaXY * Real.sin (Real.pi / 4)
      = (blob.squaredSigmaX + blob.sigmaXY) * Real.cos (Real.pi / 4) ∧
    blob.sigmaXY * Real.cos (Real.pi / 4) + blob.squaredSigmaY * Real.sin (Real.pi / 4)
      = (blob.squaredSigmaX + blob.sigmaXY) * Real.sin (Real.pi / 4) ∧
    firstOrderCoefficient blob + deltaSquareRoot blob = blob.squaredSigmaX + |blob.sigmaXY| ∧
    firstOrderCoefficient blob - deltaSquareRoot blob = blob.squaredSigmaX - |blob.sigmaXY| := by
  have hmean : firstOrderCoefficient blob = blob.squaredSigmaX := by
    unfold firstOrderCoefficient
    rw [← heq]
    ring
  refine ⟨?_, ?_, ?_, ?_, ?_⟩
  · rw [ellipseFromBlob_angle]
    unfold ellipseAngleWith
    rw [if_pos heq.symm]
  · rw [Real.cos_pi_div_four, Real.sin_pi_div_four]
    ring
  · rw [Real.cos_pi_div_four, Real.sin_pi_div_four, ← heq]
    ring
  · rw [hmean, deltaSquareRoot_of_equal blob heq]
  · rw [hmean, deltaSquareRoot_of_equal blob heq]

/-- For equal variances and a positive covariance the returned angle `π / 4` is
the direction of the major axis. -/
theorem equal_variance_positive_covariance (blob : ProtectedBlob ℝ) (confidence : ℝ)
    (heq : blob.squaredSigmaX = blob.squaredSigmaY) (hpos : 0 < blob.sigmaXY) :
    blob.squaredSigmaX * Real.cos (ellipseFromBlob blob confidence).2.2
        + blob.sigmaXY * Real.sin (ellipseFromBlob blob confidence).2.2
      = (firstOrderCoefficient blob + deltaSquareRoot blob)
        * Real.cos (ellipseFromBlob blob confidence).2.2 ∧
    blob.sigmaXY * Real.cos (ellipseFromBlob blob confidence).2.2
        + blob.squaredSigmaY * Real.sin (ellipseFromBlob blob confidence).2.2
      = (firstOrderCoefficient blob + deltaSquareRoot blob)
        * Real.sin (ellipseFromBlob blob confidence).2.2 := by
  obtain ⟨ht, h1, h2, hmajor, _⟩ := equal_variance_angle blob confidence heq
  rw [ht, hmajor, abs_of_pos hpos]
  exact ⟨h1, h2⟩

/-- C16 at the covariance with variances 2 and 2 and covariance -1, which is
positive definite.  `ellipseFromBlob` returns the angle `π / 4`; the eigenvalues
under the square roots are 3 (major) and 1 (minor); the covariance matrix maps
the unit vector of the returned angle to itself times 1, the minor eigenvalue,
and not to itself times 3: the returned angle is the direction of the minor
axis.  The direction of the major axis is that of the angle `-π / 4`. -/
theorem equal_variance_anticorrelated_angle :
    PositiveSemidefinite exampleAnticorrelated ∧
    exampleAnticorrelated.squaredSigmaX = exampleAnticorrelated.squaredSigmaY ∧
    exampleAnticorrelated.sigmaXY ≠ 0 ∧
    (ellipseFromBlob exampleAnticorrelated 1).2.2 = Real.pi / 4 ∧
    firstOrderCoefficient exampleAnticorrelated + deltaSquareRoot exampleAnticorrelated = 3 ∧
    firstOrderCoefficient exampleAnticorrelated - deltaSquareRoot exampleAnticorrelated = 1 ∧
    (exampleAnticorrelated.squaredSigmaX * Real.cos (ellipseFromBlob exampleAnticorrelated 1).2.2
        + exampleAnticorrelated.sigmaXY * Real.sin (ellipseFromBlob exampleAnticorrelated 1).2.2
      = 1 * Real.cos (ellipseFromBlob exampleAnticorrelated 1).2.2) ∧
    (exampleAnticorrelated.sigmaXY * Real.cos (ellipseFromBlob exampleAnticorrelated 1).2.2
        + exampleAnticorrelated.squaredSigmaY * Real.sin (ellipseFromBlob exampleAnticorrelated 1).2.2
      = 1 * Real.sin (ellipseFromBlob exampleAnticorrelated 1).2.2) ∧
    ¬ (exampleAnticorrelated.squaredSigmaX * Real.cos (ellipseFromBlob exampleAnticorrelated 1).2.2
        + exampleAnticorrelated.sigmaXY * Real.sin (ellipseFromBlob exampleAnticorrelated 1).2.2
      = (firstOrderCoefficient exampleAnticorrelated + deltaSquareRoot exampleAnticorrelated)
        * Real.cos (ellipseFromBlob exampleAnticorrelated 1).2.2) ∧
    (exampleAnticorrelated.squaredSigmaX * Real.cos (-(Real.pi / 4))
        + exampleAnticorrelated.sigmaXY * Real.sin (-(Real.pi / 4))
      = (firstOrderCoefficient exampleAnticorrelated + deltaSquareRoot exampleAnticorrelated)
        * Real.cos (-(Real.pi / 4))) ∧
    (exampleAnticorrelated.sigmaXY * Real.cos (-(Real.pi / 4))
        + exampleAnticorrelated.squaredSigmaY * Real.sin (-(Real.pi / 4))
      = (firstOrderCoefficient exampleAnticorrelated + deltaSquareRoot exampleAnticorrelated)
        * Real.sin (-(Real.pi / 4))) := by
  have heq : exampleAnticorrelated.squaredSigmaX = exampleAnticorrelated.squaredSigmaY := rfl
  obtain ⟨ht, _, _, hmajor, hminor⟩ := equal_variance_angle exampleAnticorrelated 1 heq
  have hsx : exampleAnticorrelated.squaredSigmaX = 2 := rfl
  have hsy : exampleAnticorrelated.squaredSigmaY = 2 := rfl
  have hsxy : exampleAnticorrelated.sigmaXY = -1 := rfl
  have habs : |exampleAnticorrelated.sigmaXY| = 1 := by
    rw [hsxy]
    norm_num
  have hmajor3 : firstOrderCoefficient exampleAnticorrelated
      + deltaSquareRoot exampleAnticorrelated = 3 := by
    rw [hmajor, habs, hsx]
    norm_num
  have hminor1 : firstOrderCoefficient exampleAnticorrelated
      - deltaSquareRoot exampleAnticorrelated = 1 := by
    rw [hminor, habs, hsx]
    norm_num
  have hroot : 0 < Real.sqrt 2 := Real.sqrt_pos.mpr (by norm_num)
  refine ⟨?_, heq, ?_, ht, hmajor3, hminor1, ?_, ?_, ?_, ?_, ?_⟩
  · unfold PositiveSemidefinite
    rw [hsx, hsy, hsxy]
    norm_num
  · rw [hsxy]
    norm_num
  · rw [ht, hsx, hsxy, Real.cos_pi_div_four, Real.sin_pi_div_four]
    ring
  · rw [ht, hsy, hsxy, Real.cos_pi_div_four, Real.sin_pi_div_four]
    ring
  · rw [ht, hmajor3, hsx, hsxy, Real.cos_pi_div_four, Real.sin_pi_div_four]
    intro h
    linarith
  · rw [hmajor3, hsx, hsxy, Real.cos_neg, Real.sin_neg, Real.cos_pi_div_four,
      Real.sin_pi_div_four]
    ring
  · rw [hmajor3, hsy, hsxy, Real.cos_neg, Real.sin_neg, Real.cos_pi_div_four,
      Real.sin_pi_div_four]
    ring

/-- For variances `2 + ε` and 2 and covariance -1, the angle of the general
formula tends to `-π / 4` as `ε` tends to 0 from above. -/
theorem anticorrelated_limit_from_above :
    Filter.Tendsto
      (fun ε : ℝ => (ellipseFromBlob (ProtectedBlob.mk 0 0 (2 + ε) (-1) 2) 1).2.2)
      (nhdsWithin 0 (Set.Ioi 0)) (nhds (-(Real.pi / 4))) := by
  have h1 : Filter.Tendsto (fun ε : ℝ => ε⁻¹) (nhdsWithin 0 (Set.Ioi 0)) Filter.atTop :=
    tendsto_inv_zero_atTop
  have h2 : Filter.Tendsto (fun ε : ℝ => (-2) * ε⁻¹) (nhdsWithin 0 (Set.Ioi 0)) Filter.atBot :=
    h1.const_mul_atTop_of_neg (by norm_num)
  have h3 : Filter.Tendsto (fun ε : ℝ => Real.arctan ((-2) * ε⁻¹)) (nhdsWithin 0 (Set.Ioi 0))
      (nhds (-(Real.pi / 2))) :=
    (Real.tendsto_arctan_atBot.mono_right nhdsWithin_le_nhds).comp h2
  have h4 : Filter.Tendsto (fun ε : ℝ => (Real.arctan ((-2) * ε⁻¹) + 0) / 2)
      (nhdsWithin 0 (Set.Ioi 0)) (nhds ((-(Real.pi / 2) + 0) / 2)) :=
    (h3.add_const 0).div_const 2
  rw [show (-(Real.pi / 2) + 0) / 2 = -(Real.pi / 4) by ring] at h4
  refine Filter.Tendsto.congr' ?_ h4
  refine eventually_nhdsWithin_of_forall ?_
  intro ε hε
  have hpos : (0 : ℝ) < ε := hε
  simp only [ellipseFromBlob_angle]
  unfold ellipseAngleWith
  simp only
  rw [if_neg (by linarith), if_neg (by linarith)]
  rw [show (2 : ℝ) * (-1) / (2 + ε - 2) = (-2) * ε⁻¹ by
    rw [show (2 : ℝ) + ε - 2 = ε by ring, div_eq_mul_inv]; norm_num]

/-- For variances `2 - ε` and 2 and covariance -1, the angle of the general
formula tends to `3 * π / 4`, which is `-π / 4` plus `π`, as `ε` tends to 0 from
above. -/
theorem anticorrelated_limit_from_below :
    Filter.Tendsto
      (fun ε : ℝ => (ellipseFromBlob (ProtectedBlob.mk 0 0 (2 - ε) (-1) 2) 1).2.2)
      (nhdsWithin 0 (Set.Ioi 0)) (nhds (3 * Real.pi / 4)) := by
  have h1 : Filter.Tendsto (fun ε : ℝ => ε⁻¹) (nhdsWithin 0 (Set.Ioi 0)) Filter.atTop :=
    tendsto_inv_zero_atTop
  have h2 : Filter.Tendsto (fun ε : ℝ => 2 * ε⁻¹) (nhdsWithin 0 (Set.Ioi 0)) Filter.atTop :=
    h1.const_mul_atTop (by norm_num)
  have h3 : Filter.Tendsto (fun ε : ℝ => Real.arctan (2 * ε⁻¹)) (nhdsWithin 0 (Set.Ioi 0))
      (nhds (Real.pi / 2)) :=
    (Real.tendsto_arctan_atTop.mono_right nhdsWithin_le_nhds).comp h2
  have h4 : Filter.Tendsto (fun ε : ℝ => (Real.arctan (2 * ε⁻¹) + Real.pi) / 2)
      (nhdsWithin 0 (Set.Ioi 0)) (nhds ((Real.pi / 2 + Real.pi) / 2)) :=
    (h3.add_const Real.pi).div_const 2
  rw [show (Real.pi / 2 + Real.pi) / 2 = 3 * Real.pi / 4 by ring] at h4
  refine Filter.Tendsto.congr' ?_ h4
  refine eventually_nhdsWithin_of_forall ?_
  intro ε hε
  have hpos : (0 : ℝ) < ε := hε
  simp only [ellipseFromBlob_angle]
  unfold ellipseAngleWith
  simp only
  rw [if_neg (by linarith), if_pos (by linarith)]
  rw [show (2 : ℝ) * (-1) / (2 - ε - 2) = 2 * ε⁻¹ by
    rw [show (2 : ℝ) - ε - 2 = -ε by ring, div_neg, div_eq_mul_inv]; norm_num]

end EllipseTheorems

/-! ## The render pass: the draw command of an entry, and the lock -/

section PaintCommandTheorems

theorem BlobMap.mem_of_find {R : Type} (m : BlobMap R) (id : Nat) (v : BlobAndIsVisible R)
    (h : m.find id = some v) : (id, v) ∈ m := by
  induction m with
  | nil => simp [BlobMap.find] at h
  | cons e rest ih =>
      obtain ⟨k, w⟩ := e
      by_cases hk : k = id
      · simp [BlobMap.find, hk] at h
        simp [hk, h]
      · simp [BlobMap.find, hk] at h
        exact List.mem_cons_of_mem _ (ih h)

theorem wrapInt32_of_int32 (z : Int) (hlo : -2147483648 ≤ z) (hhi : z ≤ 2147483647) :
    wrapInt32 z = z := by
  unfold wrapInt32
  omega

/-- The events of the loop body for a visible entry. -/
theorem paintEntry_visible (d : BlobDisplay ℝ) (id : Nat) (blob : ProtectedBlob ℝ) :
    paintEntry d (id, (blob, true))
      = [PaintEvent.resetTransform,
          PaintEvent.setWindow 0 0 d.canvasSize.width d.canvasSize.height,
          PaintEvent.translate blob.x ((wrapInt32 (d.canvasSize.height - 1) : ℝ) - blob.y),
          PaintEvent.rotate (-(ellipseFromBlob blob d.confidence).2.2 * 180 / Real.pi),
          PaintEvent.drawEllipse (ellipseFromBlob blob d.confidence).1
            (ellipseFromBlob blob d.confidence).2.1] := by
  unfold paintEntry
  simp only [if_true]
  rw [show -(ellipseFromBlob blob d.confidence).2.2 / Real.pi * 180
      = -(ellipseFromBlob blob d.confidence).2.2 * 180 / Real.pi by ring]

/-- The events of `paint` for a display with the access flag clear. -/
theorem paint_returned (d : BlobDisplay ℝ) (hfree : d.accessingBlobs = false) :
    paint d = .returned
      ([PaintEvent.setPen d.pen, .setBrush d.brush, .setRenderHint, .lockAcquire]
          ++ d.blobAndIsVisibleById.flatMap (paintEntry d) ++ [PaintEvent.lockRelease], d) := by
  unfold paint
  simp only [hfree]
  cases d with
  | mk cs pen brush conf m flag =>
      simp only at hfree
      simp [hfree]

/-- C13, as stated, fails at the canvas height `-2147483648`, the least `int`:
for the visible blob at `(10, 20)` the `int` subtraction `height - 1` wraps to
`2147483647`, so `paint` translates to `(10, 2147483627)`, and no event of the
call translates to `(10, H - 1 - y)`, which is `(10, -2147483669)`. -/
theorem paint_translate_least_height_counterexample :
    exampleDisplayLeastHeight.blobAndIsVisibleById.find 1
      = some (ProtectedBlob.mk 10 20 4 0 1, true) ∧
    exampleDisplayLeastHeight.canvasSize.height = -2147483648 ∧
    ∃ events, paint exampleDisplayLeastHeight = .returned (events, exampleDisplayLeastHeight) ∧
      PaintEvent.translate 10 2147483627 ∈ events ∧
      PaintEvent.translate 10 (((-2147483648 : Int) : ℝ) - 1 - 20) ∉ events := by
  have hwrap : wrapInt32 (-2147483648 - 1) = 2147483647 := by decide
  have hevents : [PaintEvent.setPen exampleDisplayLeastHeight.pen,
        PaintEvent.setBrush exampleDisplayLeastHeight.brush, PaintEvent.setRenderHint,
        PaintEvent.lockAcquire]
        ++ exampleDisplayLeastHeight.blobAndIsVisibleById.flatMap
            (paintEntry exampleDisplayLeastHeight)
        ++ [PaintEvent.lockRelease]
      = [PaintEvent.setPen exampleDisplayLeastHeight.pen,
          PaintEvent.setBrush exampleDisplayLeastHeight.brush, PaintEvent.setRenderHint,
          PaintEvent.lockAcquire, PaintEvent.resetTransform,
          PaintEvent.setWindow 0 0 320 (-2147483648),
          PaintEvent.translate 10 2147483627,
          PaintEvent.rotate
            (-(ellipseFromBlob (ProtectedBlob.mk 10 20 4 0 1) 1).2.2 * 180 / Real.pi),
          PaintEvent.drawEllipse (ellipseFromBlob (ProtectedBlob.mk 10 20 4 0 1) 1).1
            (ellipseFromBlob (ProtectedBlob.mk 10 20 4 0 1) 1).2.1,
          PaintEvent.lockRelease] := by
    have hentry := paintEntry_visible exampleDisplayLeastHeight 1 (ProtectedBlob.mk 10 20 4 0 1)
    have hheight : exampleDisplayLeastHeight.canvasSize.height = -2147483648 := rfl
    have hwidth : exampleDisplayLeastHeight.canvasSize.width = 320 := rfl
    have hconf : exampleDisplayLeastHeight.confidence = 1 := rfl
    rw [hheight, hwidth, hconf, hwrap] at hentry
    have hdy : ((2147483647 : Int) : ℝ) - (ProtectedBlob.mk 10 20 4 0 1 : ProtectedBlob ℝ).y
        = 2147483627 := by
      norm_num
    rw [hdy] at hentry
    have hmap : exampleDisplayLeastHeight.blobAndIsVisibleById
        = [(1, (ProtectedBlob.mk 10 20 4 0 1, true))] := rfl
    rw [hmap, List.flatMap_cons, List.flatMap_nil, hentry]
    rfl
  refine ⟨rfl, rfl, _, paint_returned exampleDisplayLeastHeight rfl, ?_, ?_⟩
  · rw [hevents]
    simp
  · rw [hevents]
    simp only [List.mem_cons, List.mem_singleton, List.not_mem_nil, reduceCtorEq, false_or,
      or_false, PaintEvent.translate.injEq, true_and, not_or]
    norm_num

/-- C13, amended. For every visible entry with position `(x, y)` and covariance
in `blob`, every canvas height `H` that is an `int` above the least one, and
the confidence `k` of the display, a `paint` call entered with the access flag
clear issues, one after the other, a reset of the transform, the window, the
translation to `(x, H - 1 - y)`, the rotation by `-angle * 180 / π` degrees and
the ellipse draw command with the radii `(majorRadius, minorRadius)`, where
`(majorRadius, minorRadius, angle)` is `ellipseFromBlob blob k` for the
geometry the entry has and the confidence the display has at the call. -/
theorem paint_draw_command (d : BlobDisplay ℝ) (id : Nat) (blob : ProtectedBlob ℝ)
    (hfree : d.accessingBlobs = false)
    (hfind : d.blobAndIsVisibleById.find id = some (blob, true))
    (hlo : -2147483648 < d.canvasSize.height) (hhi : d.canvasSize.height ≤ 2147483647) :
    ∃ events before after, paint d = .returned (events, d) ∧
      events = before ++
        [PaintEvent.resetTransform,
          PaintEvent.setWindow 0 0 d.canvasSize.width d.canvasSize.height,
          PaintEvent.translate blob.x ((d.canvasSize.height : ℝ) - 1 - blob.y),
          PaintEvent.rotate (-(ellipseFromBlob blob d.confidence).2.2 * 180 / Real.pi),
          PaintEvent.drawEllipse (ellipseFromBlob blob d.confidence).1
            (ellipseFromBlob blob d.confidence).2.1] ++ after := by
  have hmem := BlobMap.mem_of_find _ _ _ hfind
  obtain ⟨l1, l2, hsplit⟩ := List.append_of_mem hmem
  have hwrap : wrapInt32 (d.canvasSize.height - 1) = d.canvasSize.height - 1 :=
    wrapInt32_of_int32 _ (by omega) (by omega)
  have hcast : ((wrapInt32 (d.canvasSize.height - 1) : Int) : ℝ)
      = (d.canvasSize.height : ℝ) - 1 := by
    rw [hwrap]
    push_cast
    ring
  refine ⟨_, [PaintEvent.setPen d.pen, .setBrush d.brush, .setRenderHint, .lockAcquire]
      ++ l1.flatMap (paintEntry d), l2.flatMap (paintEntry d) ++ [PaintEvent.lockRelease],
    paint_returned d hfree, ?_⟩
  rw [hsplit, List.flatMap_append, List.flatMap_cons, paintEntry_visible, hcast]
  simp only [List.append_assoc]

/-- An instance of the amended C13 after the canvas size and the confidence
have been set: the command uses the height 480 and the confidence 3. -/
theorem paint_draw_command_witness :
    (setConfidence (setCanvasSize exampleDisplayOne (QSize.mk 640 480)) 3).accessingBlobs = false ∧
    (setConfidence (setCanvasSize exampleDisplayOne (QSize.mk 640 480)) 3).blobAndIsVisibleById.find 1
      = some (ProtectedBlob.mk 10 20 4 0 1, true) ∧
    -2147483648
      < (setConfidence (setCanvasSize exampleDisplayOne (QSize.mk 640 480)) 3).canvasSize.height ∧
    (setConfidence (setCanvasSize exampleDisplayOne (QSize.mk 640 480)) 3).canvasSize.height
      ≤ 2147483647 ∧
    ∃ events before after,
      paint (setConfidence (setCanvasSize exampleDisplayOne (QSize.mk 640 480)) 3)
        = .returned (events, setConfidence (setCanvasSize exampleDisplayOne (QSize.mk 640 480)) 3) ∧
      events = before ++
        [PaintEvent.resetTransform,
          PaintEvent.setWindow 0 0 640 480,
          PaintEvent.translate 10 (((480 : Int) : ℝ) - 1 - 20),
          PaintEvent.rotate (-(ellipseFromBlob (ProtectedBlob.mk 10 20 4 0 1) 3).2.2 * 180 / Real.pi),
          PaintEvent.drawEllipse (ellipseFromBlob (ProtectedBlob.mk 10 20 4 0 1) 3).1
            (ellipseFromBlob (ProtectedBlob.mk 10 20 4 0 1) 3).2.1] ++ after :=
  have hlo : -2147483648
      < (setConfidence (setCanvasSize exampleDisplayOne (QSize.mk 640 480)) 3).canvasSize.height := by
    decide
  have hhi : (setConfidence (setCanvasSize exampleDisplayOne (QSize.mk 640 480)) 3).canvasSize.height
      ≤ 2147483647 := by
    decide
  ⟨rfl, rfl, hlo, hhi, paint_draw_command
    (setConfidence (setCanvasSize exampleDisplayOne (QSize.mk 640 480)) 3) 1
    (ProtectedBlob.mk 10 20 4 0 1) rfl rfl hlo hhi⟩

/-! ### The lock along the trace of a render pass -/

theorem paintEntry_lockAfter (d : BlobDisplay ℝ) (e : Nat × BlobAndIsVisible ℝ) :
    ∀ ev ∈ paintEntry d e, ev.lockAfter true = true := by
  intro ev hev
  unfold paintEntry at hev
  cases hv : e.2.2 with
  | false => simp [hv] at hev
  | true =>
      simp only [hv, if_true, List.mem_cons, List.mem_singleton, List.not_mem_nil, or_false] at hev
      rcases hev with h | h | h | h | h <;> rw [h] <;> rfl

theorem everyDrawWhileHeld_append (es rest : List PaintEvent)
    (h : ∀ ev ∈ es, ev.lockAfter true = true) :
    everyDrawWhileHeld true (es ++ rest) = everyDrawWhileHeld true rest := by
  induction es with
  | nil => rfl
  | cons e es ih =>
      have he : e.lockAfter true = true := h e (List.mem_cons_self _ _)
      have hes : ∀ ev ∈ es, ev.lockAfter true = true :=
        fun ev hev => h ev (List.mem_cons_of_mem _ hev)
      simp only [List.cons_append, everyDrawWhileHeld, he, Bool.or_true, Bool.true_and]
      exact ih hes

theorem lockAtEnd_append (es rest : List PaintEvent)
    (h : ∀ ev ∈ es, ev.lockAfter true = true) :
    lockAtEnd true (es ++ rest) = lockAtEnd true rest := by
  induction es with
  | nil => rfl
  | cons e es ih =>
      have he : e.lockAfter true = true := h e (List.mem_cons_self _ _)
      have hes : ∀ ev ∈ es, ev.lockAfter true = true :=
        fun ev hev => h ev (List.mem_cons_of_mem _ hev)
      simp only [List.cons_append, lockAtEnd, he]
      exact ih hes

theorem flatMap_paintEntry_lockAfter (d : BlobDisplay ℝ) (m : BlobMap ℝ) :
    ∀ ev ∈ m.flatMap (paintEntry d), ev.lockAfter true = true := by
  intro ev hev
  obtain ⟨e, _, he⟩ := List.mem_flatMap.mp hev
  exact paintEntry_lockAfter d e ev he

/-- C19, as stated, fails on the display with one visible blob: the trace of
`paint` has an ellipse draw command while `_accessingBlobs` is held, the
command of the blob coming after the lock is taken and before its release. -/
theorem paint_draws_while_held_counterexample :
    ∃ events, paint exampleDisplayOne = .returned (events, exampleDisplayOne) ∧
      noDrawWhileHeld false events = false ∧
      events =
        [PaintEvent.setPen exampleDisplayOne.pen, PaintEvent.setBrush exampleDisplayOne.brush,
          PaintEvent.setRenderHint, PaintEvent.lockAcquire]
        ++ paintEntry exampleDisplayOne (1, (ProtectedBlob.mk 10 20 4 0 1, true))
        ++ [PaintEvent.lockRelease] := by
  refine ⟨_, rfl, ?_, ?_⟩
  · simp [exampleDisplayOne, paintEntry, noDrawWhileHeld, PaintEvent.lockAfter,
      PaintEvent.isDraw]
  · simp [exampleDisplayOne]

theorem noDrawWhileHeld_append (es rest : List PaintEvent)
    (h : ∀ ev ∈ es, ev.lockAfter true = true) (hrest : noDrawWhileHeld true rest = false) :
    noDrawWhileHeld true (es ++ rest) = false := by
  induction es with
  | nil => exact hrest
  | cons e es ih =>
      have he : e.lockAfter true = true := h e (List.mem_cons_self _ _)
      have hes : ∀ ev ∈ es, ev.lockAfter true = true :=
        fun ev hev => h ev (List.mem_cons_of_mem _ hev)
      have htail := ih hes
      show (!(true && e.isDraw) && noDrawWhileHeld (e.lockAfter true) (es ++ rest)) = false
      rw [he, htail, Bool.and_false]

/-- C19, amended. In every render pass entered with the access flag clear,
every ellipse draw command is issued while `_accessingBlobs` is held: the lock
is taken before the loop over the registry, no event of the loop releases it,
and its release is the last event of the call, after the last draw command.
So a pass over a registry with a visible entry has a draw command under the
lock. -/
theorem paint_draws_while_held (d : BlobDisplay ℝ) (hfree : d.accessingBlobs = false) :
    ∃ events, paint d = .returned (events, d) ∧
      everyDrawWhileHeld false events = true ∧
      lockAtEnd false events = false ∧
      events.getLast? = some PaintEvent.lockRelease ∧
      (∀ e ∈ d.blobAndIsVisibleById, e.2.2 = true → noDrawWhileHeld false events = false) := by
  have hret : paint d = .returned
      ([PaintEvent.setPen d.pen, .setBrush d.brush, .setRenderHint, .lockAcquire]
          ++ d.blobAndIsVisibleById.flatMap (paintEntry d) ++ [PaintEvent.lockRelease], d) := by
    unfold paint
    simp only [hfree]
    cases d with
    | mk cs pen brush conf m flag =>
        simp only at hfree
        simp [hfree]
  have hbody := flatMap_paintEntry_lockAfter d d.blobAndIsVisibleById
  refine ⟨_, hret, ?_, ?_, List.getLast?_concat _, ?_⟩
  · show everyDrawWhileHeld true
      (d.blobAndIsVisibleById.flatMap (paintEntry d) ++ [PaintEvent.lockRelease]) = true
    rw [everyDrawWhileHeld_append _ _ hbody]
    rfl
  · show lockAtEnd true
      (d.blobAndIsVisibleById.flatMap (paintEntry d) ++ [PaintEvent.lockRelease]) = false
    rw [lockAtEnd_append _ _ hbody]
    rfl
  · intro e he hv
    obtain ⟨l1, l2, hsplit⟩ := List.append_of_mem he
    have hl1 := flatMap_paintEntry_lockAfter d l1
    obtain ⟨id, blob, vis⟩ := e
    simp only at hv
    subst hv
    show noDrawWhileHeld true
      (d.blobAndIsVisibleById.flatMap (paintEntry d) ++ [PaintEvent.lockRelease]) = false
    rw [hsplit, List.flatMap_append, List.flatMap_cons, paintEntry_visible, List.append_assoc]
    apply noDrawWhileHeld_append _ _ hl1
    rfl

/-- An instance of the amended C19 on the display with one visible blob. -/
theorem paint_draws_while_held_witness :
    exampleDisplayOne.accessingBlobs = false ∧
    ∃ events, paint exampleDisplayOne = .returned (events, exampleDisplayOne) ∧
      everyDrawWhileHeld false events = true ∧
      lockAtEnd false events = false ∧
      events.getLast? = some PaintEvent.lockRelease ∧
      (∀ e ∈ exampleDisplayOne.blobAndIsVisibleById, e.2.2 = true →
        noDrawWhileHeld false events = false) :=
  ⟨rfl, paint_draws_while_held exampleDisplayOne rfl⟩

end PaintCommandTheorems

/-! ## Sequences of calls: the last call and the visible flag -/

section LastCallTheorems

variable {R : Type}

theorem contains_of_visibleOf (d : BlobDisplay R) (id : Nat) (b : Bool)
    (h : d.visibleOf id = some b) : d.contains id = true := by
  unfold BlobDisplay.visibleOf at h
  unfold BlobDisplay.contains
  cases hfind : d.blobAndIsVisibleById.find id with
  | none => simp [hfind] at h
  | some v => rfl

/-- Once the identifier is in the registry, it is there at every later call of
a run of promote, update and demote calls. -/
theorem presentWhenCalled_of_contains (id : Nat) (calls : List (Call R)) :
    ∀ d : BlobDisplay R, d.accessingBlobs = false → d.contains id = true →
      presentWhenCalled d id calls = true := by
  induction calls with
  | nil =>
      intro d _ _
      rfl
  | cons c cs ih =>
      intro d hfree hin
      have step : ∃ d1, c.apply d id = .returned d1 ∧ d1.accessingBlobs = false ∧
          d1.contains id = true := by
        cases c with
        | promote blob =>
            obtain ⟨d1, hret, hfree1, hvis⟩ := promoteBlob_visible d id blob hfree
            exact ⟨d1, hret, hfree1, contains_of_visibleOf d1 id _ hvis⟩
        | update blob =>
            obtain ⟨d1, hret, hfree1, hvis⟩ := updateBlob_visible d id blob hfree hin
            refine ⟨d1, hret, hfree1, ?_⟩
            unfold BlobDisplay.contains at hin ⊢
            unfold BlobDisplay.visibleOf at hvis
            cases hfind : d.blobAndIsVisibleById.find id with
            | none => simp [hfind] at hin
            | some v =>
                cases hfind1 : d1.blobAndIsVisibleById.find id with
                | none => simp [hfind, hfind1] at hvis
                | some v1 => rfl
        | demote blob =>
            obtain ⟨d1, hret, hfree1, hvis⟩ := demoteBlob_visible d id blob hfree hin
            exact ⟨d1, hret, hfree1, contains_of_visibleOf d1 id _ hvis⟩
      obtain ⟨d1, hret, hfree1, hin1⟩ := step
      simp only [presentWhenCalled, hret, hin, Bool.or_true, Bool.true_and]
      exact ih d1 hfree1 hin1

/-- C14, as stated, fails on the run promote, demote, update: the visible flag
is false at the end although the most recent call that touched the entry is an
update, not a demote. -/
theorem visible_false_after_update_counterexample :
    ∃ d1, runCalls exampleDisplay 7
        [.promote exampleBlob, .demote exampleBlob, .update exampleBlob] = .returned d1 ∧
      d1.visibleOf 7 = some false ∧
      lastCallIsDemote [Call.promote exampleBlob, .demote exampleBlob, .update exampleBlob]
        = false ∧
      ¬ (d1.visibleOf 7 = some false ↔
        lastCallIsDemote [Call.promote exampleBlob, .demote exampleBlob, .update exampleBlob]
          = true) :=
  ⟨_, rfl, by decide, by decide, by decide⟩

/-- C14, amended. For every run of promote, update and demote calls on one
identifier that begins with a promote and is started with the access flag
clear, every call returns and the visible flag of the entry at the end is false
if and only if the most recent promote-or-demote call of the run was a demote,
and true if and only if it was a promote: an update rewrites the geometry and
leaves the flag as it is. -/
theorem visible_false_iff_last_toggle_demote (d : BlobDisplay R) (id : Nat)
    (blob : ProtectedBlob R) (rest : List (Call R)) (hfree : d.accessingBlobs = false) :
    ∃ d1, runCalls d id (.promote blob :: rest) = .returned d1 ∧
      (d1.visibleOf id = some false ↔
        lastPromoteOrDemote (Call.promote blob :: rest) = some false) ∧
      (d1.visibleOf id = some true ↔
        lastPromoteOrDemote (Call.promote blob :: rest) = some true) := by
  have hpre : presentWhenCalled d id (Call.promote blob :: rest) = true := by
    obtain ⟨d0, hret, hfree0, hvis⟩ := promoteBlob_visible d id blob hfree
    simp only [presentWhenCalled, Call.isUpdateOrDemote, Call.apply, hret, Bool.not_false,
      Bool.true_or, Bool.true_and]
    exact presentWhenCalled_of_contains id rest d0 hfree0 (contains_of_visibleOf d0 id _ hvis)
  obtain ⟨d1, hrun, _, hvis⟩ := runCalls_visible id (Call.promote blob :: rest) d hfree hpre
  refine ⟨d1, hrun, ?_, ?_⟩
  · rw [hvis]
    simp only [lastPromoteOrDemote]
    cases lastPromoteOrDemote rest <;> simp
  · rw [hvis]
    simp only [lastPromoteOrDemote]
    cases lastPromoteOrDemote rest <;> simp

/-- An instance of the amended C14 on the run promote, demote, update. -/
theorem visible_false_iff_last_toggle_demote_witness :
    exampleDisplay.accessingBlobs = false ∧
    ∃ d1, runCalls exampleDisplay 7
        (.promote exampleBlob :: [.demote exampleBlob, .update exampleBlob]) = .returned d1 ∧
      (d1.visibleOf 7 = some false ↔
        lastPromoteOrDemote
          (Call.promote exampleBlob :: [.demote exampleBlob, .update exampleBlob]) = some false) ∧
      (d1.visibleOf 7 = some true ↔
        lastPromoteOrDemote
          (Call.promote exampleBlob :: [.demote exampleBlob, .update exampleBlob]) = some true) :=
  ⟨rfl, visible_false_iff_last_toggle_demote exampleDisplay 7 exampleBlob
    [.demote exampleBlob, .update exampleBlob] rfl⟩

end LastCallTheorems

/-! ## The other identifiers and the configuration -/

section FrameTheorems

variable {R : Type}

/-- C20. For every display with the access flag clear, every identifier `id`
and every other identifier `j`, each of `promoteBlob`, `updateBlob` (with `id`
present), `demoteBlob` (with `id` present) and `deleteBlob` on `id` returns and
leaves `j` untouched: `j` has the same entry as before (it is present if and
only if it was, with the same five geometry fields and the same visible flag);
and the canvas size and the confidence are the same as before. -/
theorem operations_frame (d : BlobDisplay R) (id j : Nat) (blob : ProtectedBlob R)
    (hfree : d.accessingBlobs = false) (hne : j ≠ id) :
    (∃ d1, promoteBlob d id blob = .returned d1 ∧ d.UntouchedAt d1 j) ∧
    (d.contains id = true → ∃ d1, updateBlob d id blob = .returned d1 ∧ d.UntouchedAt d1 j) ∧
    (d.contains id = true → ∃ d1, demoteBlob d id blob = .returned d1 ∧ d.UntouchedAt d1 j) ∧
    (∃ d1, deleteBlob d id blob = .returned d1 ∧ d.UntouchedAt d1 j) := by
  refine ⟨?_, ?_, ?_, ?_⟩
  · unfold promoteBlob
    cases hfind : d.blobAndIsVisibleById.find id with
    | none =>
        simp only [hfree]
        exact ⟨_, rfl, BlobMap.find_insert_other _ _ _ _ hne, rfl, rfl⟩
    | some old =>
        simp only [hfree]
        exact ⟨_, rfl, BlobMap.find_modify_other _ _ _ _ hne, rfl, rfl⟩
  · intro hin
    unfold BlobDisplay.contains at hin
    unfold updateBlob
    cases hfind : d.blobAndIsVisibleById.find id with
    | none => simp [hfind] at hin
    | some old =>
        simp only [hfree]
        exact ⟨_, rfl, BlobMap.find_modify_other _ _ _ _ hne, rfl, rfl⟩
  · intro hin
    unfold BlobDisplay.contains at hin
    unfold demoteBlob
    cases hfind : d.blobAndIsVisibleById.find id with
    | none => simp [hfind] at hin
    | some old =>
        simp only [hfree]
        exact ⟨_, rfl, BlobMap.find_modify_other _ _ _ _ hne, rfl, rfl⟩
  · unfold deleteBlob
    simp only [hfree]
    exact ⟨_, rfl, BlobMap.find_erase_other _ _ _ hne, rfl, rfl⟩

/-- An instance of C20: calls on identifier 7 leave identifier 9 untouched. -/
theorem operations_frame_witness :
    exampleDisplay.accessingBlobs = false ∧ (9 : Nat) ≠ 7 ∧
    (∃ d1, promoteBlob exampleDisplay 7 exampleBlob = .returned d1 ∧
      exampleDisplay.UntouchedAt d1 9) ∧
    (exampleDisplay.contains 7 = true →
      ∃ d1, updateBlob exampleDisplay 7 exampleBlob = .returned d1 ∧
        exampleDisplay.UntouchedAt d1 9) ∧
    (exampleDisplay.contains 7 = true →
      ∃ d1, demoteBlob exampleDisplay 7 exampleBlob = .returned d1 ∧
        exampleDisplay.UntouchedAt d1 9) ∧
    (∃ d1, deleteBlob exampleDisplay 7 exampleBlob = .returned d1 ∧
      exampleDisplay.UntouchedAt d1 9) :=
  ⟨rfl, by decide, operations_frame exampleDisplay 7 9 exampleBlob rfl (by decide)⟩

end FrameTheorems

end chameleon
